import Mathlib

/-!
Verification of the record-extraction and filtering engine of the
Oracle_Scripts repository: the XML-formatted listener-log filters
(`listener_log_xml_filter.py`, eager whole-file strategy, and
`listener_log_xml_filter_low_memory_version.py`, incremental line-buffered
strategy) and the classifier-key selection logic of
`attention_log_viewer.py`.

Python strings (and the byte strings of the low-memory variant) are
modelled as `List Char`; Python's `None`-able values as `Option`;
exception-driven control flow as explicit `Except`/error-flag values.
`datetime` values are modelled by their calendar components plus an exact
conversion to seconds (mirroring CPython's `toordinal` arithmetic), so
`datetime.now() - log_time <= timedelta(hours=h)` becomes an exact integer
comparison on seconds.  `lxml.etree.fromstring` is external library code;
it is modelled by a concrete parser, `lxmlFromstring`, that is faithful to
lxml on the single-`msg`-element grammar the listener log uses, while all
stream-level theorems are additionally parametric in the parser.
-/

/-- Python strings are modelled as lists of characters. -/
abbrev Str := List Char

/-- The start marker the eager strategy splits on (source: `split("<msg")`). -/
def msgStart : Str := ['<', 'm', 's', 'g']

/-- The end marker the incremental strategy flushes on (source: `b"</msg>" in line`). -/
def msgEnd : Str := ['<', '/', 'm', 's', 'g', '>']

/-- Python's substring test `needle in hay` for strings. -/
def containsSub (needle : Str) : Str → Bool
  | [] => needle.isEmpty
  | c :: rest => needle.isPrefixOf (c :: rest) || containsSub needle rest

/-- Python's `s.split("<msg")`: cut at every non-overlapping leftmost
occurrence of the four-character start marker. -/
def splitMsg : Str → List Str
  | '<' :: 'm' :: 's' :: 'g' :: rest => [] :: splitMsg rest
  | c :: rest =>
    match splitMsg rest with
    | [] => [[c]]
    | p :: ps => (c :: p) :: ps
  | [] => [[]]

/-- Python's `not fragment.strip()`: true when the string is all whitespace
(so the fragment is skipped by the eager loop). -/
def stripIsEmpty (s : Str) : Bool := s.all Char.isWhitespace

/-- Truthiness of an optional Python string: `None` and `""` are falsy. -/
def optTruthy : Option Str → Bool
  | none => false
  | some s => !s.isEmpty

/-- One equality-filter guard of the source,
`if f_filter and field != f_filter: continue`: true when the record is
rejected by this constraint. -/
def filterRejects (f : Option Str) (v : Option Str) : Bool :=
  match f with
  | none => false
  | some fs => !fs.isEmpty && decide (v ≠ some fs)

section StrOrder

/-- Lexicographic string comparison, as Python's `<=` on `str` (by code
point), used to model `sorted`. -/
def strLeB : Str → Str → Bool
  | [], _ => true
  | _ :: _, [] => false
  | a :: as, b :: bs => if a < b then true else if b < a then false else strLeB as bs

/-- The order `sorted` sorts by, as a `Prop`-valued relation. -/
def strLe (a b : Str) : Prop := strLeB a b = true

instance : DecidableRel strLe := fun a b => by unfold strLe; infer_instance

theorem strLeB_total : ∀ a b : Str, strLeB a b = true ∨ strLeB b a = true := by
  intro a
  induction a with
  | nil => intro b; left; rfl
  | cons x xs ih =>
    intro b
    cases b with
    | nil => right; rfl
    | cons y ys =>
      rcases lt_trichotomy x y with h | h | h
      · left; simp [strLeB, h]
      · subst h
        rcases ih ys with h2 | h2
        · left; simp [strLeB, h2]
        · right; simp [strLeB, h2]
      · right; simp [strLeB, h]

theorem strLeB_trans : ∀ a b c : Str,
    strLeB a b = true → strLeB b c = true → strLeB a c = true := by
  intro a
  induction a with
  | nil => intro b c _ _; rfl
  | cons x xs ih =>
    intro b c hab hbc
    cases b with
    | nil => simp [strLeB] at hab
    | cons y ys =>
      cases c with
      | nil => simp [strLeB] at hbc
      | cons z zs =>
        simp only [strLeB] at hab hbc ⊢
        rcases lt_trichotomy x y with hxy | hxy | hxy
        · rcases lt_trichotomy y z with hyz | hyz | hyz
          · simp [lt_trans hxy hyz]
          · subst hyz; simp [hxy]
          · simp [hyz, not_lt.mpr (le_of_lt hyz)] at hbc
        · subst hxy
          rcases lt_trichotomy x z with hyz | hyz | hyz
          · simp [hyz]
          · subst hyz
            simp only [lt_irrefl, if_false] at hab hbc ⊢
            exact ih _ _ hab hbc
          · simp [hyz, not_lt.mpr (le_of_lt hyz)] at hbc
        · simp [hxy, not_lt.mpr (le_of_lt hxy)] at hab

instance : IsTotal Str strLe := ⟨strLeB_total⟩

instance : IsTrans Str strLe := ⟨strLeB_trans⟩

end StrOrder

/-- Python's `sorted` on a list of strings (ascending, by `<=`). -/
def pySorted (l : List Str) : List Str := List.insertionSort strLe l

/-- Adding an element to a Python `set`, modelled as a duplicate-free list:
a new element is appended, a present one is ignored. -/
def pySetInsert (s : List Str) (x : Str) : List Str :=
  if x ∈ s then s else s ++ [x]

section DateTime

/-- A value of Python's `datetime` type: calendar components. -/
structure PyDateTime where
  year : Nat
  month : Nat
  day : Nat
  hour : Nat
  minute : Nat
  second : Nat
deriving DecidableEq, Repr

/-- Gregorian leap-year test, as in CPython's `datetime` module. -/
def isLeapYear (y : Nat) : Bool := (y % 4 == 0 && y % 100 != 0) || y % 400 == 0

/-- Days in a month of a given year, as in CPython's `datetime` module. -/
def daysInMonth (y m : Nat) : Nat :=
  if m = 2 then (if isLeapYear y then 29 else 28)
  else if m = 4 ∨ m = 6 ∨ m = 9 ∨ m = 11 then 30
  else 31

/-- Days in the months before month `m` of year `y`. -/
def daysBeforeMonth (y m : Nat) : Nat :=
  (List.range (m - 1)).foldl (fun a i => a + daysInMonth y (i + 1)) 0

/-- The proleptic-Gregorian ordinal of a date (CPython `date.toordinal`):
day 1 is 0001-01-01. -/
def toOrdinal (y m d : Nat) : Nat :=
  (y - 1) * 365 + (y - 1) / 4 - (y - 1) / 100 + (y - 1) / 400 + daysBeforeMonth y m + d

/-- A `datetime` as a count of seconds (from 0001-01-01 00:00:00); CPython's
`datetime` subtraction and `timedelta` comparison are exact on this scale. -/
def PyDateTime.toSeconds (t : PyDateTime) : Int :=
  ((toOrdinal t.year t.month t.day) * 86400 + t.hour * 3600 + t.minute * 60 + t.second : Nat)

/-- `is_recent_error(log_time, hours)` of both listener-log scripts
(lines 39-44 and 54-59): `None` fails; otherwise
`datetime.now() - log_time <= timedelta(hours=hours)`, here on seconds with
`now` the value of `datetime.now()`. -/
def is_recent_error (now : Int) (log_time : Option Int) (hours : Int) : Bool :=
  match log_time with
  | none => false
  | some t => decide (now - t ≤ hours * 3600)

/-- The decimal digit character for `n < 10`. -/
def digitChar (n : Nat) : Char := Char.ofNat (48 + n)

/-- Decimal digits of a natural number, most significant first
(fuel-based so it reduces in the kernel). -/
def natDigitsAux : Nat → Nat → Str
  | 0, _ => []
  | fuel + 1, n =>
    if n < 10 then [digitChar n]
    else natDigitsAux fuel (n / 10) ++ [digitChar (n % 10)]

/-- Decimal rendering of a natural number. -/
def natStr (n : Nat) : Str := natDigitsAux (n + 1) n

/-- Zero-padded decimal rendering to width `w`. -/
def padNat (w n : Nat) : Str :=
  List.replicate (w - (natStr n).length) '0' ++ natStr n

/-- Python's `str(datetime)`: `YYYY-MM-DD HH:MM:SS` (microseconds are zero
for values parsed by the scripts' format). -/
def PyDateTime.render (t : PyDateTime) : Str :=
  padNat 4 t.year ++ ['-'] ++ padNat 2 t.month ++ ['-'] ++ padNat 2 t.day ++ [' '] ++
  padNat 2 t.hour ++ [':'] ++ padNat 2 t.minute ++ [':'] ++ padNat 2 t.second

/-- Python's `time_str.split('.')[0]`: the characters before the first `.`. -/
def takeBeforeDot : Str → Str
  | [] => []
  | c :: r => if c = '.' then [] else c :: takeBeforeDot r

/-- Two decimal digits. -/
def parse2 : Str → Option (Nat × Str)
  | a :: b :: rest =>
    if a.isDigit && b.isDigit then
      some ((a.toNat - 48) * 10 + (b.toNat - 48), rest)
    else none
  | _ => none

/-- Four decimal digits. -/
def parse4 : Str → Option (Nat × Str)
  | a :: b :: c :: d :: rest =>
    if a.isDigit && b.isDigit && c.isDigit && d.isDigit then
      some ((a.toNat - 48) * 1000 + (b.toNat - 48) * 100 + (c.toNat - 48) * 10
        + (d.toNat - 48), rest)
    else none
  | _ => none

/-- One expected literal character. -/
def expectCh (c : Char) : Str → Option Str
  | x :: rest => if x = c then some rest else none
  | [] => none

/-- Model of `datetime.strptime(s, '%Y-%m-%dT%H:%M:%S')` on the zero-padded
timestamps the listener log emits: the whole string must match the format
and the fields must form a valid datetime; `none` models the `ValueError`
the source catches (turning `log_time` into Python `None`). -/
def strptimeModel (s : Str) : Option PyDateTime := do
  let (y, s) ← parse4 s
  let s ← expectCh '-' s
  let (mo, s) ← parse2 s
  let s ← expectCh '-' s
  let (d, s) ← parse2 s
  let s ← expectCh 'T' s
  let (h, s) ← parse2 s
  let s ← expectCh ':' s
  let (mi, s) ← parse2 s
  let s ← expectCh ':' s
  let (sec, s) ← parse2 s
  if s = [] ∧ 1 ≤ y ∧ 1 ≤ mo ∧ mo ≤ 12 ∧ 1 ≤ d ∧ d ≤ daysInMonth y mo ∧
      h ≤ 23 ∧ mi ≤ 59 ∧ sec ≤ 59 then
    some ⟨y, mo, d, h, mi, sec⟩
  else none

end DateTime

section Xml

/-- The view of a parsed `msg` element that `process_msg` uses: the
attribute list of the root element and the result of `tree.find('txt')` —
`none` when there is no `txt` child, `some t` when there is one whose
`.text` is `t` (`t = none` models lxml's `None` text of an empty element). -/
structure XmlElem where
  attrs : List (Str × Str)
  txtChild : Option (Option Str)
deriving DecidableEq

/-- `tree.get(name)`: the attribute's value, or Python `None`. -/
def XmlElem.get (e : XmlElem) (name : Str) : Option Str :=
  (e.attrs.find? (fun p => p.1 == name)).map Prod.snd

/-- Whitespace skipping for the XML model. -/
def skipWs : Str → Str
  | c :: r => if c.isWhitespace then skipWs r else c :: r
  | [] => []

/-- A character allowed in an attribute name. -/
def isNameChar (c : Char) : Bool := c.isAlphanum || c = '_'

/-- The longest run of name characters and the remainder. -/
def takeName : Str → Str × Str
  | [] => ([], [])
  | c :: r =>
    if isNameChar c then
      let p := takeName r
      (c :: p.1, p.2)
    else ([], c :: r)

/-- The characters before the first occurrence of `q`, and the remainder
after it; `none` when `q` does not occur. -/
def takeUntil (q : Char) : Str → Option (Str × Str)
  | [] => none
  | c :: r =>
    if c = q then some ([], r)
    else (takeUntil q r).map (fun p => (c :: p.1, p.2))

/-- `name="value"` or `name='value'` attributes up to the closing `>` of the
start tag (fuel-based so it reduces in the kernel). -/
def parseAttrs : Nat → Str → Option (List (Str × Str) × Str)
  | 0, _ => none
  | fuel + 1, s =>
    match skipWs s with
    | '>' :: rest => some ([], rest)
    | c :: r =>
      if isNameChar c then
        match takeName (c :: r) with
        | (name, '=' :: q :: r2) =>
          if q = '"' ∨ q = '\'' then
            match takeUntil q r2 with
            | some (v, r3) =>
              match parseAttrs fuel r3 with
              | some (attrs, rest) => some ((name, v) :: attrs, rest)
              | none => none
            | none => none
          else none
        | _ => none
      else none
    | [] => none

/-- Model of `lxml.etree.fromstring` on the listener-log record grammar: a
single `msg` element with quoted attributes and at most one `txt` child
whose text holds no markup, closed by `</msg>` with only trailing
whitespace.  Anything else is a parse failure, modelling `XMLSyntaxError`.
(lxml's fuller XML support — entities, comments, other children — is not
exercised by the listener log and not modelled.) -/
def lxmlFromstring (s : Str) : Except Unit XmlElem :=
  match skipWs s with
  | '<' :: 'm' :: 's' :: 'g' :: r =>
    match parseAttrs (r.length + 1) r with
    | none => .error ()
    | some (attrs, rest) =>
      match skipWs rest with
      | '<' :: 't' :: 'x' :: 't' :: '>' :: r2 =>
        match takeUntil '<' r2 with
        | none => .error ()
        | some (text, r3) =>
          match r3 with
          | '/' :: 't' :: 'x' :: 't' :: '>' :: r4 =>
            match skipWs r4 with
            | '<' :: '/' :: 'm' :: 's' :: 'g' :: '>' :: r5 =>
              if skipWs r5 = [] then
                .ok ⟨attrs, some (if text = [] then none else some text)⟩
              else .error ()
            | _ => .error ()
          | _ => .error ()
      | '<' :: '/' :: 'm' :: 's' :: 'g' :: '>' :: r2 =>
        if skipWs r2 = [] then .ok ⟨attrs, none⟩ else .error ()
      | _ => .error ()
  | _ => .error ()

end Xml

section ProcessMsg

/-- The Python exceptions the listener-log scripts can raise or catch while
handling one fragment. -/
inductive PyErr where
  | xmlSyntaxError
  | attributeError
  | typeError
deriving DecidableEq

/-- The tuple `process_msg` returns. -/
structure ProcessedMsg where
  log_time : Option PyDateTime
  host_addr : Option Str
  pid : Option Str
  txt : Option Str
  org_id : Option Str
  comp_id : Option Str
  msg_type : Option Str
  level : Option Str
  host_id : Option Str
deriving DecidableEq

/-- `process_msg` of both listener-log scripts (lines 46-65 and 61-78),
parametric in the XML parser `P`.  A parse failure is `XMLSyntaxError`.
`tree.find('txt')` returning `None` makes `.text` raise `AttributeError`;
a `time` attribute of `None` makes `time_str.split('.')` raise
`AttributeError`; only `ValueError` from `strptime` is handled (by setting
`log_time` to `None`). -/
def process_msg (P : Str → Except Unit XmlElem) (msg_content : Str) :
    Except PyErr ProcessedMsg :=
  match P msg_content with
  | .error _ => .error .xmlSyntaxError
  | .ok tree =>
    match tree.txtChild with
    | none => .error .attributeError
    | some txt =>
      match tree.get ("time".toList) with
      | none => .error .attributeError
      | some time_str =>
        .ok
          { log_time := strptimeModel (takeBeforeDot time_str)
            host_addr := tree.get ("host_addr".toList)
            pid := tree.get ("pid".toList)
            txt := txt
            org_id := tree.get ("org_id".toList)
            comp_id := tree.get ("comp_id".toList)
            msg_type := tree.get ("type".toList)
            level := tree.get ("level".toList)
            host_id := tree.get ("host_id".toList) }

/-- Rendering of an optional string inside the output f-string:
Python prints `None` for an absent attribute. -/
def pyStr : Option Str → Str
  | none => "None".toList
  | some s => s

/-- Rendering of the parsed time inside the output f-string. -/
def pyStrTime : Option PyDateTime → Str
  | none => "None".toList
  | some t => t.render

/-- `txt.replace('\n', ' ')`. -/
def cleanTxt (t : Str) : Str := t.map (fun c => if c = '\n' then ' ' else c)

/-- The error markers of recent-errors mode. -/
def tnsMarker : Str := "TNS-".toList

/-- The second error marker of recent-errors mode. -/
def errorMarker : Str := "Error".toList

/-- The output f-string of both scripts (lines 90-91 and 121-122), given the
already-cleaned text. -/
def renderMsg (m : ProcessedMsg) (cleaned : Str) : Str :=
  "time=".toList ++ pyStrTime m.log_time ++
  " org_id=".toList ++ pyStr m.org_id ++
  " comp_id=".toList ++ pyStr m.comp_id ++
  " type=".toList ++ pyStr m.msg_type ++
  " level=".toList ++ pyStr m.level ++
  " host_id=".toList ++ pyStr m.host_id ++
  " host_addr=".toList ++ pyStr m.host_addr ++
  " pid=".toList ++ pyStr m.pid ++ [' '] ++ cleaned

end ProcessMsg

section Pipelines

/-- The observable outcome of a run: the lines printed (in order) and the
uncaught exception that aborted it, if any (`none` models the scan
completing and the process exiting with status 0). -/
structure RunResult where
  out : List Str
  err : Option PyErr
deriving DecidableEq

/-- Processing one complete fragment and folding its effect into the run:
`.ok none` is a silently skipped fragment (parse failure or filtered out),
`.ok (some line)` a printed line, `.error e` an uncaught exception that
freezes the run. -/
def stepFrag (h : Str → Except PyErr (Option Str)) (st : RunResult) (frag : Str) :
    RunResult :=
  if st.err.isSome then st
  else
    match h frag with
    | .ok none => st
    | .ok (some line) => ⟨st.out ++ [line], none⟩
    | .error e => ⟨st.out, some e⟩

namespace Eager

/-- The per-fragment body of `print_msgs_from_xml` of
`listener_log_xml_filter.py` (lines 71-94): decode, apply the host/pid
equality filters, in recent-errors mode require an error marker in the text
and a recent parsed time, then print the one-line rendering.
`XMLSyntaxError` is caught (`continue`); a `None` text makes
`"TNS-" not in txt` raise `TypeError` and `txt.replace` raise
`AttributeError`, neither of which is caught. -/
def handleFragment (P : Str → Except Unit XmlElem) (host_addr_filter pid_filter : Option Str)
    (recent_errors : Bool) (error_hours : Int) (now : Int) (frag : Str) :
    Except PyErr (Option Str) :=
  match process_msg P frag with
  | .error .xmlSyntaxError => .ok none
  | .error e => .error e
  | .ok m =>
    if filterRejects host_addr_filter m.host_addr then .ok none
    else if filterRejects pid_filter m.pid then .ok none
    else if recent_errors then
      match m.txt with
      | none => .error .typeError
      | some t =>
        if !(containsSub tnsMarker t || containsSub errorMarker t) then .ok none
        else if !(is_recent_error now (m.log_time.map PyDateTime.toSeconds) error_hours) then
          .ok none
        else .ok (some (renderMsg m (cleanTxt t)))
    else
      match m.txt with
      | none => .error .attributeError
      | some t => .ok (some (renderMsg m (cleanTxt t)))

/-- One iteration of the `for fragment in xml_content.split("<msg")` loop:
skip all-whitespace fragments, prepend `"<msg"` back and process the
fragment; an uncaught exception freezes the run. -/
def print_step (h : Str → Except PyErr (Option Str)) (st : RunResult) (piece : Str) :
    RunResult :=
  if st.err.isSome then st
  else if stripIsEmpty piece then st
  else stepFrag h st (msgStart ++ piece)

/-- `print_msgs_from_xml` of `listener_log_xml_filter.py` (lines 67-94):
split the whole content on `"<msg"` and run the loop body on every piece. -/
def print_msgs_from_xml (P : Str → Except Unit XmlElem) (xml_content : Str)
    (host_addr_filter pid_filter : Option Str) (recent_errors : Bool)
    (error_hours : Int) (now : Int) : RunResult :=
  (splitMsg xml_content).foldl
    (print_step (handleFragment P host_addr_filter pid_filter recent_errors error_hours now))
    ⟨[], none⟩

/-- The loop body of `list_unique_host_addrs` of `listener_log_xml_filter.py`
(lines 98-107): skip blank pieces, run the full `process_msg` on each
re-assembled fragment, add truthy host addresses to a set.  Only
`XMLSyntaxError` is caught, so an `AttributeError` from `process_msg`
becomes an uncaught exception that freezes the loop. -/
def lu_step (P : Str → Except Unit XmlElem) (st : List Str × Option PyErr) (piece : Str) :
    List Str × Option PyErr :=
  if st.2.isSome then st
  else if stripIsEmpty piece then st
  else
    match process_msg P (msgStart ++ piece) with
    | .error .xmlSyntaxError => st
    | .error e => (st.1, some e)
    | .ok m =>
      match m.host_addr with
      | none => st
      | some h => (if h.isEmpty then st.1 else pySetInsert st.1 h, none)

/-- The run of `list_unique_host_addrs` of the eager script: fold the loop
body over the split pieces, then either re-raise the uncaught exception
(printing nothing) or print the sorted set. -/
def list_unique_host_addrs (P : Str → Except Unit XmlElem) (xml_content : Str) : RunResult :=
  let st := (splitMsg xml_content).foldl (lu_step P) ([], none)
  match st.2 with
  | some e => ⟨[], some e⟩
  | none => ⟨pySorted st.1, none⟩

end Eager

namespace LowMem

/-- The per-fragment body of `print_msgs_from_xml` of
`listener_log_xml_filter_low_memory_version.py` (lines 95-125): as the
eager variant but with the four additional equality filters. -/
def handleFragment (P : Str → Except Unit XmlElem)
    (host_addr_filter pid_filter org_id_filter comp_id_filter type_filter host_id_filter :
      Option Str)
    (recent_errors : Bool) (error_hours : Int) (now : Int) (frag : Str) :
    Except PyErr (Option Str) :=
  match process_msg P frag with
  | .error .xmlSyntaxError => .ok none
  | .error e => .error e
  | .ok m =>
    if filterRejects host_addr_filter m.host_addr then .ok none
    else if filterRejects pid_filter m.pid then .ok none
    else if filterRejects org_id_filter m.org_id then .ok none
    else if filterRejects comp_id_filter m.comp_id then .ok none
    else if filterRejects type_filter m.msg_type then .ok none
    else if filterRejects host_id_filter m.host_id then .ok none
    else if recent_errors then
      match m.txt with
      | none => .error .typeError
      | some t =>
        if !(containsSub tnsMarker t || containsSub errorMarker t) then .ok none
        else if !(is_recent_error now (m.log_time.map PyDateTime.toSeconds) error_hours) then
          .ok none
        else .ok (some (renderMsg m (cleanTxt t)))
    else
      match m.txt with
      | none => .error .attributeError
      | some t => .ok (some (renderMsg m (cleanTxt t)))

/-- The assembler-plus-run state of the incremental variant: the line
buffer and the observable run result so far. -/
structure LMState where
  buffer : List Str
  res : RunResult
deriving DecidableEq

/-- One iteration of the `for line in xml_file` loop of
`print_msgs_from_xml` (lines 85-128): append the line to the buffer; when
the line contains `"</msg>"`, join the buffer into one fragment and process
it — the `finally` clause clears the buffer on every flush, whether the
fragment printed, was filtered, failed to parse, or raised.  After an
uncaught exception the run is frozen. -/
def lowmem_step (h : Str → Except PyErr (Option Str)) (st : LMState) (line : Str) : LMState :=
  if st.res.err.isSome then st
  else
    let buf := st.buffer ++ [line]
    if containsSub msgEnd line then ⟨[], stepFrag h st.res buf.flatten⟩
    else ⟨buf, st.res⟩

/-- `print_msgs_from_xml` of the low-memory script (lines 80-128), over the
stream of lines of the file. -/
def print_msgs_from_xml (P : Str → Except Unit XmlElem) (lines : List Str)
    (host_addr_filter pid_filter org_id_filter comp_id_filter type_filter host_id_filter :
      Option Str)
    (recent_errors : Bool) (error_hours : Int) (now : Int) : LMState :=
  lines.foldl
    (lowmem_step (handleFragment P host_addr_filter pid_filter org_id_filter comp_id_filter
      type_filter host_id_filter recent_errors error_hours now))
    ⟨[], ⟨[], none⟩⟩

/-- The line-loop body of `list_unique_host_addrs` of the low-memory script
(lines 137-156): the same line-buffered assembly as the printing loop, but
each flushed fragment goes through `ET.fromstring` alone (any parse failure
is caught) and truthy host addresses are collected in a set; the `finally`
clause clears the buffer on every flush.  This loop can raise nothing. -/
def lu_step (P : Str → Except Unit XmlElem) (st : List Str × List Str) (line : Str) :
    List Str × List Str :=
  let buf := st.2 ++ [line]
  if containsSub msgEnd line then
    (match P buf.flatten with
     | .error _ => st.1
     | .ok tree =>
       match tree.get ("host_addr".toList) with
       | none => st.1
       | some h => if h.isEmpty then st.1 else pySetInsert st.1 h, [])
  else (st.1, buf)

/-- The run of `list_unique_host_addrs` of the low-memory script: fold the
line loop (set, buffer) and print the sorted set; nothing can raise. -/
def list_unique_host_addrs (P : Str → Except Unit XmlElem) (lines : List Str) : RunResult :=
  ⟨pySorted (lines.foldl (lu_step P) ([], [])).1, none⟩

end LowMem

end Pipelines

section SpecSide

/-- A well-formed serialized record, as a group of stream lines: nonempty,
its text starts with `"<msg"`, the start marker occurs nowhere later in it,
the end marker `"</msg>"` occurs in its last line and in no earlier line.
This is the spec's well-formed, non-truncated input shape, under which the
whole-file split and the line-buffered flush carve the same fragments. -/
def wfBlock (b : List Str) : Prop :=
  b ≠ [] ∧
  msgStart.isPrefixOf b.flatten = true ∧
  containsSub msgStart (b.flatten.drop 4) = false ∧
  (∀ l ∈ b.dropLast, containsSub msgEnd l = false) ∧
  containsSub msgEnd (b.getLastD []) = true

instance (b : List Str) : Decidable (wfBlock b) := by
  unfold wfBlock
  infer_instance

/-- The lines read since the last line containing the end marker (all the
lines, when no line contained it): what the incremental buffer is claimed
to hold. -/
def sinceLastMarker (lines : List Str) : List Str :=
  lines.foldl (fun acc l => if containsSub msgEnd l then [] else acc ++ [l]) []

/-- `(current, largest)` fragment sizes, in lines, over a stream: a line
containing the end marker closes the current fragment; the trailing partial
fragment counts.  The second component is the size of the largest single
fragment of the stream. -/
def fragLens (lines : List Str) : Nat × Nat :=
  lines.foldl
    (fun p l => if containsSub msgEnd l then (0, max p.2 (p.1 + 1))
                else (p.1 + 1, max p.2 (p.1 + 1)))
    (0, 0)

/-- The size, in lines, of the largest single fragment of the stream
(counting a trailing partial fragment). -/
def maxFragLines (lines : List Str) : Nat := (fragLens lines).2

/-- The complete fragments the line-buffered assembler emits from a stream,
starting from buffer `buf`: each flush joins the buffered lines with the
line that contains the end marker. -/
def fragsAux : List Str → List Str → List Str
  | _, [] => []
  | buf, l :: rest =>
    if containsSub msgEnd l then (buf ++ [l]).flatten :: fragsAux [] rest
    else fragsAux (buf ++ [l]) rest

/-- The complete fragments of a stream of lines. -/
def flushedFrags (lines : List Str) : List Str := fragsAux [] lines

/-- The designated field the distinct-hosts aggregator extracts from one
fragment: the `host_addr` attribute of a fragment that decodes, when it is
non-empty.  (Spec words: "extracts one designated field from every
successfully decoded record ... inserts non-empty values into a set".) -/
def hostOfFrag (P : Str → Except Unit XmlElem) (frag : Str) : Option Str :=
  match P frag with
  | .error _ => none
  | .ok tree =>
    match tree.get ("host_addr".toList) with
    | none => none
    | some h => if h.isEmpty then none else some h

end SpecSide

namespace Attn

/-- Printing one attention-log record: one `key : value` line per key, in
record order (`attention_log_viewer.py` lines 51-53). -/
def printRecord (r : List (Str × Str)) : List Str :=
  r.map (fun kv => kv.1 ++ " : ".toList ++ kv.2)

/-- Lowercasing of a classifier key (`key_to_check.lower()`). -/
def lowerStr (s : Str) : Str := s.map Char.toLower

/-- The attention-type-only branch of `parse_oracle_json_attention_log`
(lines 48-53): for every key of the record whose lowercasing equals the
requested attention type, print the whole record. -/
def attention_type_branch (atype : Str) (r : List (Str × Str)) : List Str :=
  r.foldl (fun acc kv => if lowerStr kv.1 = atype then acc ++ printRecord r else acc) []

/-- The `attention_type_matches_key` flag of the combined branch
(lines 64-69): scan every key, set the flag when one matches. -/
def attention_type_matches_key (atype : Str) (r : List (Str × Str)) : Bool :=
  r.foldl (fun b kv => if lowerStr kv.1 = atype then true else b) false

end Attn

section EasyClaims

/-- Dropping an empty-string equality constraint: the spec-side
normalization an empty filter is claimed to be equivalent to. -/
def normFilter : Option Str → Option Str
  | some [] => none
  | o => o

theorem filterRejects_norm (f : Option Str) (v : Option Str) :
    filterRejects (normFilter f) v = filterRejects f v := by
  cases f with
  | none => rfl
  | some s => cases s with
    | nil => rfl
    | cons c cs => rfl

theorem lowmem_handleFragment_norm (P : Str → Except Unit XmlElem)
    (f1 f2 f3 f4 f5 f6 : Option Str) (re : Bool) (eh now : Int) (frag : Str) :
    LowMem.handleFragment P (normFilter f1) (normFilter f2) (normFilter f3) (normFilter f4)
      (normFilter f5) (normFilter f6) re eh now frag =
    LowMem.handleFragment P f1 f2 f3 f4 f5 f6 re eh now frag := by
  unfold LowMem.handleFragment
  cases h : process_msg P frag with
  | error e => cases e <;> rfl
  | ok m => simp only [filterRejects_norm]

theorem eager_handleFragment_norm (P : Str → Except Unit XmlElem)
    (f1 f2 : Option Str) (re : Bool) (eh now : Int) (frag : Str) :
    Eager.handleFragment P (normFilter f1) (normFilter f2) re eh now frag =
    Eager.handleFragment P f1 f2 re eh now frag := by
  unfold Eager.handleFragment
  cases h : process_msg P frag with
  | error e => cases e <;> rfl
  | ok m => simp only [filterRejects_norm]

/-- C10: an exact-match filter constraint supplied as the empty string
behaves exactly like an absent constraint: the empty-string guard rejects
no record, and replacing any of the six filters (host_addr, pid, org_id,
comp_id, type, host_id — and the two of the eager variant) that is the
empty string by an absent one leaves the whole run unchanged. -/
theorem c10_empty_filter_is_absent (P : Str → Except Unit XmlElem)
    (lines : List Str) (content : Str) (f1 f2 f3 f4 f5 f6 : Option Str)
    (re : Bool) (eh now : Int) :
    (∀ v : Option Str, filterRejects (some []) v = false) ∧
    LowMem.print_msgs_from_xml P lines f1 f2 f3 f4 f5 f6 re eh now =
      LowMem.print_msgs_from_xml P lines (normFilter f1) (normFilter f2) (normFilter f3)
        (normFilter f4) (normFilter f5) (normFilter f6) re eh now ∧
    Eager.print_msgs_from_xml P content f1 f2 re eh now =
      Eager.print_msgs_from_xml P content (normFilter f1) (normFilter f2) re eh now := by
  refine ⟨fun v => rfl, ?_, ?_⟩
  · unfold LowMem.print_msgs_from_xml
    have h : LowMem.handleFragment P (normFilter f1) (normFilter f2) (normFilter f3)
        (normFilter f4) (normFilter f5) (normFilter f6) re eh now =
        LowMem.handleFragment P f1 f2 f3 f4 f5 f6 re eh now :=
      funext (lowmem_handleFragment_norm P f1 f2 f3 f4 f5 f6 re eh now)
    rw [h]
  · unfold Eager.print_msgs_from_xml
    have h : Eager.handleFragment P (normFilter f1) (normFilter f2) re eh now =
        Eager.handleFragment P f1 f2 re eh now :=
      funext (eager_handleFragment_norm P f1 f2 re eh now)
    rw [h]

/-- C4: the recency window is inclusive at its boundary: a timestamp
exactly `h` hours before now satisfies `is_recent_error`, and a timestamp
`h + 1` hours before now does not. -/
theorem c4_recency_boundary_inclusive (now t t' : PyDateTime) (h : Int)
    (hexact : t.toSeconds = now.toSeconds - h * 3600)
    (hfurther : t'.toSeconds = now.toSeconds - (h + 1) * 3600) :
    is_recent_error now.toSeconds (some t.toSeconds) h = true ∧
    is_recent_error now.toSeconds (some t'.toSeconds) h = false := by
  constructor
  · simp only [is_recent_error, hexact, decide_eq_true_eq]
    omega
  · simp only [is_recent_error, hfurther, decide_eq_false_iff_not]
    omega

/-- Witness for C4 at a concrete horizon of 24 hours around
2023-09-11 12:00:00. -/
theorem c4_recency_boundary_inclusive_witness :
    (PyDateTime.toSeconds ⟨2023, 9, 10, 12, 0, 0⟩ =
      PyDateTime.toSeconds ⟨2023, 9, 11, 12, 0, 0⟩ - 24 * 3600) ∧
    (PyDateTime.toSeconds ⟨2023, 9, 10, 11, 0, 0⟩ =
      PyDateTime.toSeconds ⟨2023, 9, 11, 12, 0, 0⟩ - (24 + 1) * 3600) ∧
    (is_recent_error (PyDateTime.toSeconds ⟨2023, 9, 11, 12, 0, 0⟩)
        (some (PyDateTime.toSeconds ⟨2023, 9, 10, 12, 0, 0⟩)) 24 = true ∧
      is_recent_error (PyDateTime.toSeconds ⟨2023, 9, 11, 12, 0, 0⟩)
        (some (PyDateTime.toSeconds ⟨2023, 9, 10, 11, 0, 0⟩)) 24 = false) :=
  ⟨by decide, by decide,
    c4_recency_boundary_inclusive ⟨2023, 9, 11, 12, 0, 0⟩ ⟨2023, 9, 10, 12, 0, 0⟩
      ⟨2023, 9, 10, 11, 0, 0⟩ 24 (by decide) (by decide)⟩

end EasyClaims

section AttnClaims

theorem attention_branch_acc (atype : Str) (r : List (Str × Str)) :
    ∀ (l : List (Str × Str)) (acc : List Str),
      l.foldl (fun acc kv => if Attn.lowerStr kv.1 = atype then acc ++ Attn.printRecord r
        else acc) acc =
      acc ++ ((l.filter fun kv => decide (Attn.lowerStr kv.1 = atype)).map
        (fun _ => Attn.printRecord r)).flatten := by
  intro l
  induction l with
  | nil => intro acc; simp
  | cons kv rest ih =>
    intro acc
    by_cases h : Attn.lowerStr kv.1 = atype
    · simp only [List.foldl_cons, if_pos h, ih, List.filter_cons, decide_eq_true h]
      simp [List.append_assoc]
    · simp only [List.foldl_cons, if_neg h, ih, List.filter_cons,
        decide_eq_false h]
      simp

theorem attention_matches_acc (atype : Str) (r : List (Str × Str)) :
    ∀ (b : Bool), r.foldl (fun b kv => if Attn.lowerStr kv.1 = atype then true else b) b =
      (b || r.any (fun kv => decide (Attn.lowerStr kv.1 = atype))) := by
  induction r with
  | nil => intro b; simp
  | cons kv rest ih =>
    intro b
    rw [List.foldl_cons]
    by_cases h : Attn.lowerStr kv.1 = atype
    · rw [if_pos h, ih true]
      simp [h]
    · rw [if_neg h, ih b]
      simp [h]

/-- C9: the classifier-type filter of the attention-log viewer is evaluated
against every key of a decoded record, case-insensitively: the branch's
output is one copy of the record per matching key, the record is selected
(prints something) exactly when some key of the record matches the
requested type, and the combined-filter flag likewise scans all keys. -/
theorem c9_attention_type_all_keys (atype : Str) (r : List (Str × Str)) :
    Attn.attention_type_branch atype r =
      ((r.filter fun kv => decide (Attn.lowerStr kv.1 = atype)).map
        (fun _ => Attn.printRecord r)).flatten ∧
    ((Attn.attention_type_branch atype r).isEmpty = false ↔
      ∃ kv ∈ r, Attn.lowerStr kv.1 = atype) ∧
    Attn.attention_type_matches_key atype r =
      r.any (fun kv => decide (Attn.lowerStr kv.1 = atype)) := by
  have heq := attention_branch_acc atype r r []
  have hflag : Attn.attention_type_matches_key atype r =
      r.any (fun kv => decide (Attn.lowerStr kv.1 = atype)) := by
    have h := attention_matches_acc atype r false
    rw [Bool.false_or] at h
    exact h
  refine ⟨heq, ?_, hflag⟩
  rw [Attn.attention_type_branch, heq, List.nil_append, List.isEmpty_eq_false]
  constructor
  · intro h
    rcases List.exists_mem_of_ne_nil _ h with ⟨x, hx⟩
    rcases List.mem_flatten.mp hx with ⟨seg, hseg, _⟩
    rcases List.mem_map.mp hseg with ⟨kv, hkv, _⟩
    exact ⟨kv, (List.mem_filter.mp hkv).1, of_decide_eq_true (List.mem_filter.mp hkv).2⟩
  · rintro ⟨kv, hmem, hmatch⟩
    have hkvf : kv ∈ r.filter fun kv => decide (Attn.lowerStr kv.1 = atype) :=
      List.mem_filter.mpr ⟨hmem, decide_eq_true hmatch⟩
    have hrec : Attn.printRecord r ∈
        (r.filter fun kv => decide (Attn.lowerStr kv.1 = atype)).map
          (fun _ => Attn.printRecord r) :=
      List.mem_map.mpr ⟨kv, hkvf, rfl⟩
    have hne : Attn.printRecord r ≠ [] := by
      simp only [Attn.printRecord, ne_eq, List.map_eq_nil_iff]
      exact List.ne_nil_of_mem hmem
    rcases List.exists_mem_of_ne_nil _ hne with ⟨y, hy⟩
    exact List.ne_nil_of_mem (List.mem_flatten.mpr ⟨Attn.printRecord r, hrec, hy⟩)

end AttnClaims

section AssemblerClaims

theorem lowmem_step_frozen (h : Str → Except PyErr (Option Str)) (st : LowMem.LMState)
    (l : Str) (he : st.res.err.isSome = true) : LowMem.lowmem_step h st l = st := by
  unfold LowMem.lowmem_step
  simp [he]

theorem lowmem_fold_frozen (h : Str → Except PyErr (Option Str)) :
    ∀ (lines : List Str) (st : LowMem.LMState), st.res.err.isSome = true →
      List.foldl (LowMem.lowmem_step h) st lines = st := by
  intro lines
  induction lines with
  | nil => intro st _; rfl
  | cons l rest ih =>
    intro st he
    rw [List.foldl_cons, lowmem_step_frozen h st l he]
    exact ih st he

theorem lowmem_res_const_of_no_marker (h : Str → Except PyErr (Option Str)) :
    ∀ (t : List Str) (st : LowMem.LMState),
      (∀ l ∈ t, containsSub msgEnd l = false) →
      (List.foldl (LowMem.lowmem_step h) st t).res = st.res := by
  intro t
  induction t with
  | nil => intro st _; rfl
  | cons l rest ih =>
    intro st hm
    rw [List.foldl_cons]
    rw [ih _ (fun x hx => hm x (List.mem_cons_of_mem l hx))]
    unfold LowMem.lowmem_step
    by_cases he : st.res.err.isSome
    · simp [he]
    · simp [he, hm l (List.mem_cons_self l rest)]

/-- C6: a stream that ends while a fragment is still being accumulated (a
marker-free tail after any prefix) produces exactly the observable outcome
of the prefix alone: the partial trailing fragment is never emitted, raises
nothing, and a clean scan stays clean (models exit status 0). -/
theorem c6_truncated_trailing_fragment_dropped (P : Str → Except Unit XmlElem)
    (f1 f2 f3 f4 f5 f6 : Option Str) (re : Bool) (eh now : Int) (ls t : List Str)
    (ht : ∀ l ∈ t, containsSub msgEnd l = false) :
    (LowMem.print_msgs_from_xml P (ls ++ t) f1 f2 f3 f4 f5 f6 re eh now).res =
      (LowMem.print_msgs_from_xml P ls f1 f2 f3 f4 f5 f6 re eh now).res := by
  unfold LowMem.print_msgs_from_xml
  rw [List.foldl_append]
  exact lowmem_res_const_of_no_marker _ t _ ht

theorem lowmem_buffer_fold (h : Str → Except PyErr (Option Str)) :
    ∀ (lines : List Str) (st : LowMem.LMState),
      (List.foldl (LowMem.lowmem_step h) st lines).res.err = none →
      (List.foldl (LowMem.lowmem_step h) st lines).buffer =
        lines.foldl (fun acc l => if containsSub msgEnd l then [] else acc ++ [l]) st.buffer := by
  intro lines
  induction lines with
  | nil => intro st _; rfl
  | cons l rest ih =>
    intro st hok
    rw [List.foldl_cons] at hok ⊢
    have hst : st.res.err.isSome = false := by
      by_contra hco
      have hs : st.res.err.isSome = true := by
        cases hb : st.res.err.isSome
        · exact absurd hb hco
        · rfl
      rw [lowmem_step_frozen h st l hs, lowmem_fold_frozen h rest st hs] at hok
      rw [hok] at hs
      exact Bool.false_ne_true hs
    rw [ih _ hok]
    unfold LowMem.lowmem_step
    by_cases hm : containsSub msgEnd l
    · simp [hst, hm]
    · simp [hst, hm]

theorem lu_buffer_fold (P : Str → Except Unit XmlElem) :
    ∀ (lines : List Str) (st : List Str × List Str),
      (List.foldl (LowMem.lu_step P) st lines).2 =
        lines.foldl (fun acc l => if containsSub msgEnd l then [] else acc ++ [l]) st.2 := by
  intro lines
  induction lines with
  | nil => intro st; rfl
  | cons l rest ih =>
    intro st
    rw [List.foldl_cons, List.foldl_cons, ih]
    unfold LowMem.lu_step
    by_cases hm : containsSub msgEnd l
    · simp [hm]
    · simp [hm]

theorem sinceLastMarker_no_marker :
    ∀ (lines : List Str) (acc : List Str),
      (∀ l ∈ acc, containsSub msgEnd l = false) →
      ∀ l ∈ lines.foldl (fun acc l => if containsSub msgEnd l then [] else acc ++ [l]) acc,
        containsSub msgEnd l = false := by
  intro lines
  induction lines with
  | nil => intro acc hacc; exact hacc
  | cons l rest ih =>
    intro acc hacc
    rw [List.foldl_cons]
    by_cases hm : containsSub msgEnd l
    · rw [if_pos hm]
      exact ih [] (by intro x hx; cases hx)
    · rw [if_neg hm]
      refine ih (acc ++ [l]) ?_
      intro x hx
      rcases List.mem_append.mp hx with hx | hx
      · exact hacc x hx
      · rw [List.mem_singleton.mp hx]
        exact Bool.of_not_eq_true hm

theorem sinceLastMarker_len_le :
    ∀ (lines : List Str) (acc : List Str) (cur mx : Nat), acc.length = cur → cur ≤ mx →
      (lines.foldl (fun acc l => if containsSub msgEnd l then [] else acc ++ [l]) acc).length ≤
        (lines.foldl
          (fun p l => if containsSub msgEnd l then ((0 : Nat), max p.2 (p.1 + 1))
            else (p.1 + 1, max p.2 (p.1 + 1))) (cur, mx)).2 := by
  intro lines
  induction lines with
  | nil =>
    intro acc cur mx hlen hle
    simpa [hlen] using hle
  | cons l rest ih =>
    intro acc cur mx hlen hle
    rw [List.foldl_cons, List.foldl_cons]
    by_cases hm : containsSub msgEnd l
    · rw [if_pos hm, if_pos hm]
      exact ih [] 0 (max mx (cur + 1)) rfl (Nat.zero_le _)
    · rw [if_neg hm, if_neg hm]
      refine ih (acc ++ [l]) (cur + 1) (max mx (cur + 1)) ?_ (Nat.le_max_right _ _)
      simp [hlen]

theorem lowmem_fold_err_buffer_empty (h : Str → Except PyErr (Option Str)) :
    ∀ (lines : List Str) (st : LowMem.LMState),
      (st.res.err.isSome = true → st.buffer = []) →
      ((List.foldl (LowMem.lowmem_step h) st lines).res.err.isSome = true →
        (List.foldl (LowMem.lowmem_step h) st lines).buffer = []) := by
  intro lines
  induction lines with
  | nil => intro st hinv; exact hinv
  | cons l rest ih =>
    intro st hinv
    rw [List.foldl_cons]
    apply ih
    unfold LowMem.lowmem_step
    by_cases he : st.res.err.isSome = true
    · rw [if_pos he]
      exact hinv
    · rw [if_neg he]
      by_cases hm : containsSub msgEnd l
      · rw [if_pos hm]
        intro _
        rfl
      · rw [if_neg hm]
        intro hcon
        exact absurd hcon he

/-- C2: the incremental assembler clears its buffer on every flush (the
`finally` clause runs whether the fragment was emitted, filtered out,
failed to decode, or raised).  Consequently, as long as the run has not
been aborted by an uncaught exception, the buffer holds exactly the lines
read since the last line containing `"</msg>"`, none of which contains the
end marker; after an abort the buffer is empty; and on EVERY stream the
buffer's size is bounded by the size of the largest single fragment of the
stream, independent of how many records the stream contains.  The buffer of
the distinct-hosts line loop is always exactly the lines since the last
end-marker line. -/
theorem c2_buffer_holds_since_last_marker (P : Str → Except Unit XmlElem)
    (f1 f2 f3 f4 f5 f6 : Option Str) (re : Bool) (eh now : Int) (lines : List Str) :
    ((LowMem.print_msgs_from_xml P lines f1 f2 f3 f4 f5 f6 re eh now).res.err = none →
      (LowMem.print_msgs_from_xml P lines f1 f2 f3 f4 f5 f6 re eh now).buffer =
        sinceLastMarker lines ∧
      (∀ l ∈ (LowMem.print_msgs_from_xml P lines f1 f2 f3 f4 f5 f6 re eh now).buffer,
        containsSub msgEnd l = false)) ∧
    ((LowMem.print_msgs_from_xml P lines f1 f2 f3 f4 f5 f6 re eh now).res.err ≠ none →
      (LowMem.print_msgs_from_xml P lines f1 f2 f3 f4 f5 f6 re eh now).buffer = []) ∧
    (LowMem.print_msgs_from_xml P lines f1 f2 f3 f4 f5 f6 re eh now).buffer.length ≤
      maxFragLines lines ∧
    (List.foldl (LowMem.lu_step P) ([], []) lines).2 = sinceLastMarker lines := by
  have hempty : (LowMem.print_msgs_from_xml P lines f1 f2 f3 f4 f5 f6 re eh now).res.err ≠
      none →
      (LowMem.print_msgs_from_xml P lines f1 f2 f3 f4 f5 f6 re eh now).buffer = [] := by
    intro hne
    apply lowmem_fold_err_buffer_empty
      (LowMem.handleFragment P f1 f2 f3 f4 f5 f6 re eh now) lines ⟨[], ⟨[], none⟩⟩
      (fun hcon => by cases hcon)
    cases herr : (LowMem.print_msgs_from_xml P lines f1 f2 f3 f4 f5 f6 re eh now).res.err with
    | none => exact absurd herr hne
    | some e =>
      unfold LowMem.print_msgs_from_xml at herr
      rw [herr]
      rfl
  refine ⟨?_, hempty, ?_, lu_buffer_fold P lines ([], [])⟩
  · intro hok
    have hsince : (LowMem.print_msgs_from_xml P lines f1 f2 f3 f4 f5 f6 re eh now).buffer =
        sinceLastMarker lines :=
      lowmem_buffer_fold (LowMem.handleFragment P f1 f2 f3 f4 f5 f6 re eh now) lines
        ⟨[], ⟨[], none⟩⟩ hok
    refine ⟨hsince, ?_⟩
    rw [hsince]
    exact sinceLastMarker_no_marker lines [] (by intro x hx; cases hx)
  · cases hok : (LowMem.print_msgs_from_xml P lines f1 f2 f3 f4 f5 f6 re eh now).res.err with
    | none =>
      have hsince : (LowMem.print_msgs_from_xml P lines f1 f2 f3 f4 f5 f6 re eh now).buffer =
          sinceLastMarker lines :=
        lowmem_buffer_fold (LowMem.handleFragment P f1 f2 f3 f4 f5 f6 re eh now) lines
          ⟨[], ⟨[], none⟩⟩ hok
      rw [hsince]
      exact sinceLastMarker_len_le lines [] 0 0 rfl (Nat.le_refl 0)
    | some e =>
      rw [hempty (by rw [hok]; intro hcon; cases hcon)]
      exact Nat.zero_le _

end AssemblerClaims

section AssemblerWitnesses

/-- A concrete stream for the C2 witness: two complete records followed by
a truncated trailing fragment. -/
def c2Lines : List Str :=
  ["<msg time='2023-09-11T10:00:00' host_addr='10.1.1.1' pid='7'>\n".toList,
   " <txt>hello\n".toList,
   " </txt>\n".toList,
   "</msg>\n".toList,
   "<msg time='2023-09-11T10:05:00' host_addr='10.1.1.2' pid='8'>\n".toList,
   " <txt>world\n".toList,
   " </txt>\n".toList,
   "</msg>\n".toList,
   "<msg time='2023-09-11T10:06:00' host_addr='10.1.1.3' pid='9'>\n".toList,
   " <txt>partial tail\n".toList]

/-- Witness for C2 on `c2Lines`: the error-free run buffers exactly the two
lines read since the last `"</msg>"` line. -/
theorem c2_buffer_holds_since_last_marker_witness :
    (LowMem.print_msgs_from_xml lxmlFromstring c2Lines none none none none none none
        false 24 0).res.err = none ∧
    (LowMem.print_msgs_from_xml lxmlFromstring c2Lines none none none none none none
        false 24 0).buffer = sinceLastMarker c2Lines ∧
    (LowMem.print_msgs_from_xml lxmlFromstring c2Lines none none none none none none
        false 24 0).buffer.length ≤ maxFragLines c2Lines :=
  ⟨by decide,
    ((c2_buffer_holds_since_last_marker lxmlFromstring none none none none none none
      false 24 0 c2Lines).1 (by decide)).1,
    (c2_buffer_holds_since_last_marker lxmlFromstring none none none none none none
      false 24 0 c2Lines).2.2.1⟩

/-- The complete prefix of the C6 witness stream. -/
def c6Prefix : List Str :=
  ["<msg time='2023-09-11T10:00:00' host_addr='10.1.1.1' pid='7'>\n".toList,
   " <txt>hello\n".toList,
   " </txt>\n".toList,
   "</msg>\n".toList]

/-- The truncated trailing fragment of the C6 witness stream. -/
def c6Tail : List Str :=
  ["<msg time='2023-09-11T10:06:00' host_addr='10.1.1.3' pid='9'>\n".toList,
   " <txt>partial tail\n".toList]

/-- Witness for C6 on a concrete stream ending mid-record. -/
theorem c6_truncated_trailing_fragment_dropped_witness :
    (∀ l ∈ c6Tail, containsSub msgEnd l = false) ∧
    (LowMem.print_msgs_from_xml lxmlFromstring (c6Prefix ++ c6Tail) none none none none none none
        false 24 0).res =
      (LowMem.print_msgs_from_xml lxmlFromstring c6Prefix none none none none none none
        false 24 0).res :=
  ⟨by decide,
    c6_truncated_trailing_fragment_dropped lxmlFromstring none none none none none none
      false 24 0 c6Prefix c6Tail (by decide)⟩

end AssemblerWitnesses

section StrLemmas

theorem splitMsg_ne_nil (s : Str) : splitMsg s ≠ [] := by
  rw [splitMsg.eq_def]
  split
  · simp
  · cases splitMsg _ <;> simp
  · simp

theorem splitMsg_msgStart (u : Str) : splitMsg (msgStart ++ u) = [] :: splitMsg u := rfl

theorem nil_isPrefixOf (p : Str) : List.isPrefixOf [] p = true := by
  cases p <;> rfl

theorem prefix_extend : ∀ (s p t : Str), p.isPrefixOf (s ++ t) = true →
    p.isPrefixOf s = true ∨
      (s.isPrefixOf p = true ∧ (p.drop s.length).isPrefixOf t = true) := by
  intro s
  induction s with
  | nil =>
    intro p t h
    right
    exact ⟨nil_isPrefixOf p, h⟩
  | cons c s' ih =>
    intro p t h
    cases p with
    | nil => left; rfl
    | cons x p' =>
      rw [List.cons_append] at h
      simp only [List.isPrefixOf, Bool.and_eq_true, beq_iff_eq] at h
      obtain ⟨hxc, hrest⟩ := h
      subst hxc
      rcases ih p' t hrest with h1 | ⟨h2a, h2b⟩
      · left
        simp [List.isPrefixOf, h1]
      · right
        refine ⟨by simp [List.isPrefixOf, h2a], ?_⟩
        simpa using h2b

theorem head_of_isPrefixOf (a : Char) (l u : Str) (h : (a :: l).isPrefixOf u = true) :
    ∃ w, u = a :: w := by
  cases u with
  | nil => simp [List.isPrefixOf] at h
  | cons b w =>
    simp only [List.isPrefixOf, Bool.and_eq_true, beq_iff_eq] at h
    exact ⟨w, by rw [h.1]⟩

theorem eq_append_drop_of_isPrefixOf (p s : Str) (h : p.isPrefixOf s = true) :
    s = p ++ s.drop p.length := by
  obtain ⟨t, rfl⟩ := List.isPrefixOf_iff_prefix.mp h
  simp

theorem containsSub_nil_left : ∀ t : Str, containsSub [] t = true := by
  intro t
  cases t with
  | nil => rfl
  | cons c r => simp [containsSub, List.isPrefixOf]

theorem isPrefixOf_append_ext (p s t : Str) (h : p.isPrefixOf s = true) :
    p.isPrefixOf (s ++ t) = true := by
  rw [List.isPrefixOf_iff_prefix] at h ⊢
  exact h.trans (List.prefix_append s t)

theorem containsSub_append_right (n s t : Str) (h : containsSub n s = true) :
    containsSub n (s ++ t) = true := by
  induction s with
  | nil =>
    have hn : n = [] := by simpa [containsSub, List.isEmpty_iff] using h
    subst hn
    exact containsSub_nil_left t
  | cons c s' ih =>
    rw [List.cons_append]
    simp only [containsSub, Bool.or_eq_true] at h ⊢
    rcases h with h1 | h2
    · left
      have := isPrefixOf_append_ext n (c :: s') t h1
      rwa [List.cons_append] at this
    · right
      exact ih h2

theorem containsSub_append_left (n s t : Str) (h : containsSub n t = true) :
    containsSub n (s ++ t) = true := by
  induction s with
  | nil => exact h
  | cons c s' ih =>
    rw [List.cons_append]
    simp only [containsSub, Bool.or_eq_true]
    right
    exact ih

theorem containsSub_exists (n s : Str) (h : containsSub n s = true) (hn : n ≠ []) :
    ∃ a b, s = a ++ n ++ b := by
  induction s with
  | nil =>
    exfalso
    apply hn
    simpa [containsSub, List.isEmpty_iff] using h
  | cons c s' ih =>
    simp only [containsSub, Bool.or_eq_true] at h
    rcases h with h1 | h2
    · exact ⟨[], (c :: s').drop n.length, by simpa using eq_append_drop_of_isPrefixOf n _ h1⟩
    · obtain ⟨a, b, hab⟩ := ih h2
      exact ⟨c :: a, b, by simp [hab]⟩

theorem mem_lt_of_containsSub_msgEnd (s : Str) (h : containsSub msgEnd s = true) : '<' ∈ s := by
  obtain ⟨a, b, rfl⟩ := containsSub_exists msgEnd s h (by simp [msgEnd])
  simp [msgEnd]

theorem stripIsEmpty_false_of_mem (s : Str) (h : '<' ∈ s) : stripIsEmpty s = false := by
  unfold stripIsEmpty
  cases hall : s.all Char.isWhitespace
  · rfl
  · exfalso
    have hws := List.all_eq_true.mp hall '<' h
    exact absurd hws (by decide)

theorem containsSub_msgEnd_msgStart_append (r : Str) :
    containsSub msgEnd (msgStart ++ r) = containsSub msgEnd r := by
  simp [msgStart, msgEnd, containsSub, List.isPrefixOf]

end StrLemmas

section SplitBlocks

theorem length_le_of_isPrefixOf (p s : Str) (h : p.isPrefixOf s = true) :
    p.length ≤ s.length :=
  (List.isPrefixOf_iff_prefix.mp h).length_le

theorem eq_of_isPrefixOf_ge (p s : Str) (h : p.isPrefixOf s = true)
    (hl : s.length ≤ p.length) : p = s :=
  (List.isPrefixOf_iff_prefix.mp h).eq_of_length_le hl

theorem isPrefixOf_self (p : Str) : p.isPrefixOf p = true :=
  List.isPrefixOf_iff_prefix.mpr (List.prefix_refl p)

theorem splitMsg_cons_ne (c : Char) (w : Str) (h : msgStart.isPrefixOf (c :: w) = false) :
    splitMsg (c :: w) = (c :: (splitMsg w).headI) :: (splitMsg w).tail := by
  rw [splitMsg.eq_def]
  split
  · rename_i rest heq
    exfalso
    have ht : msgStart.isPrefixOf (c :: w) = true := by
      rw [heq]
      simp [msgStart, List.isPrefixOf]
    rw [ht] at h
    simp at h
  · rename_i s c' rest hne heq
    injection heq with h1 h2
    subst h1
    subst h2
    cases hs : splitMsg w with
    | nil => exact absurd hs (splitMsg_ne_nil w)
    | cons p ps => simp
  · rename_i heq
    simp at heq

theorem msgStart_not_prefix_head (c : Char) (r' u : Str)
    (hnp : msgStart.isPrefixOf (c :: r') = false)
    (hu : u = [] ∨ ∃ v, u = '<' :: v) :
    msgStart.isPrefixOf (c :: (r' ++ u)) = false := by
  cases hp : msgStart.isPrefixOf (c :: (r' ++ u)) with
  | false => rfl
  | true =>
    exfalso
    have hp' : msgStart.isPrefixOf ((c :: r') ++ u) = true := by
      rwa [List.cons_append]
    rcases prefix_extend (c :: r') msgStart u hp' with h1 | ⟨h2a, h2b⟩
    · rw [h1] at hnp
      simp at hnp
    · by_cases hlen : 4 ≤ (c :: r').length
      · have heq : (c :: r') = msgStart :=
          eq_of_isPrefixOf_ge (c :: r') msgStart h2a (by simpa [msgStart] using hlen)
        rw [heq, isPrefixOf_self] at hnp
        simp at hnp
      · have hk : (c :: r').length = 1 ∨ (c :: r').length = 2 ∨ (c :: r').length = 3 := by
          simp only [List.length_cons] at hlen ⊢
          omega
        have hfirst : ∀ a l, (msgStart.drop (c :: r').length) = a :: l →
            (a :: l).isPrefixOf u = true → False := by
          intro a l hdrop hpre
          obtain ⟨w, hw⟩ := head_of_isPrefixOf a l u hpre
          rcases hu with hu0 | ⟨v, hv⟩
          · rw [hu0] at hw
            exact List.cons_ne_nil a w hw.symm
          · rw [hv] at hw
            have ha : a = '<' := by
              injection hw.symm
            rcases hk with hk | hk | hk <;> rw [hk] at hdrop <;>
              simp [msgStart] at hdrop <;> obtain ⟨h1, -⟩ := hdrop <;> subst h1 <;>
              exact absurd ha (by decide)
        rcases hk with hk | hk | hk
        · exact hfirst 'm' ['s', 'g'] (by rw [hk]; rfl) (by
            have := h2b
            rw [hk] at this
            exact this)
        · exact hfirst 's' ['g'] (by rw [hk]; rfl) (by
            have := h2b
            rw [hk] at this
            exact this)
        · exact hfirst 'g' [] (by rw [hk]; rfl) (by
            have := h2b
            rw [hk] at this
            exact this)

theorem splitMsg_append_noOcc : ∀ (r u : Str), containsSub msgStart r = false →
    (u = [] ∨ ∃ v, u = '<' :: v) →
    splitMsg (r ++ u) = (r ++ (splitMsg u).headI) :: (splitMsg u).tail := by
  intro r
  induction r with
  | nil =>
    intro u _ _
    cases hs : splitMsg u with
    | nil => exact absurd hs (splitMsg_ne_nil u)
    | cons p ps => simp [hs]
  | cons c r' ih =>
    intro u hc hu
    have hc' : msgStart.isPrefixOf (c :: r') = false ∧ containsSub msgStart r' = false := by
      have h0 : (msgStart.isPrefixOf (c :: r') || containsSub msgStart r') = false := hc
      exact ⟨(Bool.or_eq_false_iff.mp h0).1, (Bool.or_eq_false_iff.mp h0).2⟩
    have hnp := msgStart_not_prefix_head c r' u hc'.1 hu
    rw [List.cons_append, splitMsg_cons_ne c (r' ++ u) hnp, ih u hc'.2 hu]
    simp

theorem splitMsg_blocks : ∀ (blocks : List (List Str)),
    (∀ b ∈ blocks, wfBlock b) →
    splitMsg (blocks.map (fun b => b.flatten)).flatten =
      [] :: blocks.map (fun b => b.flatten.drop 4) := by
  intro blocks
  induction blocks with
  | nil => intro _; rfl
  | cons b rest ih =>
    intro hwf
    obtain ⟨hne, hpre, hnoocc, hmid, hlast⟩ := hwf b (List.mem_cons_self b rest)
    rw [List.map_cons, List.flatten_cons]
    have hb_eq : b.flatten = msgStart ++ b.flatten.drop 4 := by
      have h := eq_append_drop_of_isPrefixOf msgStart b.flatten hpre
      simpa [msgStart] using h
    rw [hb_eq, List.append_assoc, splitMsg_msgStart]
    have hu : (rest.map (fun b => b.flatten)).flatten = [] ∨
        ∃ v, (rest.map (fun b => b.flatten)).flatten = '<' :: v := by
      cases rest with
      | nil => left; rfl
      | cons b' rest' =>
        right
        have hb' := hwf b' (List.mem_cons_of_mem b (List.mem_cons_self b' rest'))
        obtain ⟨w, hw⟩ := head_of_isPrefixOf '<' ['m', 's', 'g'] b'.flatten
          (by simpa [msgStart] using hb'.2.1)
        refine ⟨w ++ (rest'.map (fun b => b.flatten)).flatten, ?_⟩
        rw [List.map_cons, List.flatten_cons, hw]
        rfl
    rw [splitMsg_append_noOcc _ _ hnoocc hu, ih (fun x hx => hwf x (List.mem_cons_of_mem b hx))]
    simp

end SplitBlocks

section Bridging

theorem stepFrag_frozen (h : Str → Except PyErr (Option Str)) (st : RunResult) (frag : Str)
    (he : st.err.isSome = true) : stepFrag h st frag = st := by
  unfold stepFrag
  rw [if_pos he]

theorem getLastD_of_ne_nil (l : List Str) (h : l ≠ []) (d d' : Str) :
    l.getLastD d = l.getLastD d' := by
  cases l with
  | nil => exact absurd rfl h
  | cons a l' => rw [List.getLastD_cons, List.getLastD_cons]

theorem containsSub_flatten_of_last (b : List Str) (hne : b ≠ [])
    (hlast : containsSub msgEnd (b.getLastD []) = true) :
    containsSub msgEnd b.flatten = true := by
  have hsplit : b.dropLast ++ [b.getLast hne] = b := List.dropLast_concat_getLast hne
  have hl : b.getLastD [] = b.getLast hne := by
    rw [List.getLastD_eq_getLast?, List.getLast?_eq_getLast _ hne]
    rfl
  rw [← hsplit, List.flatten_append]
  apply containsSub_append_left
  simp only [List.flatten_cons, List.flatten_nil, List.append_nil]
  rw [← hl]
  exact hlast

theorem flatten_flatten (l : List (List (List Char))) :
    l.flatten.flatten = (l.map List.flatten).flatten := by
  induction l with
  | nil => rfl
  | cons x xs ih => simp [List.flatten_append, ih]

theorem eager_fold_blocks (h : Str → Except PyErr (Option Str)) :
    ∀ (blocks : List (List Str)) (st : RunResult), (∀ b ∈ blocks, wfBlock b) →
      List.foldl (Eager.print_step h) st (blocks.map (fun b => b.flatten.drop 4)) =
      List.foldl (stepFrag h) st (blocks.map (fun b => b.flatten)) := by
  intro blocks
  induction blocks with
  | nil => intro st _; rfl
  | cons b rest ih =>
    intro st hwf
    obtain ⟨hne, hpre, hnoocc, hmid, hlast⟩ := hwf b (List.mem_cons_self b rest)
    have hb_eq : b.flatten = msgStart ++ b.flatten.drop 4 := by
      have h1 := eq_append_drop_of_isPrefixOf msgStart b.flatten hpre
      simpa [msgStart] using h1
    rw [List.map_cons, List.map_cons, List.foldl_cons, List.foldl_cons]
    have hstep : Eager.print_step h st (b.flatten.drop 4) = stepFrag h st b.flatten := by
      unfold Eager.print_step
      by_cases he : st.err.isSome = true
      · rw [if_pos he, stepFrag_frozen h st _ he]
      · have hmark : containsSub msgEnd (b.flatten.drop 4) = true := by
          have h1 : containsSub msgEnd b.flatten = true :=
            containsSub_flatten_of_last b hne hlast
          rw [hb_eq, containsSub_msgEnd_msgStart_append] at h1
          exact h1
        have hstrip : stripIsEmpty (b.flatten.drop 4) = false :=
          stripIsEmpty_false_of_mem _ (mem_lt_of_containsSub_msgEnd _ hmark)
        rw [if_neg he, hstrip]
        simp only [Bool.false_eq_true, if_false]
        rw [← hb_eq]
    rw [hstep]
    exact ih (stepFrag h st b.flatten) (fun x hx => hwf x (List.mem_cons_of_mem b hx))

theorem eager_run_blocks (P : Str → Except Unit XmlElem) (haf pf : Option Str) (re : Bool)
    (eh now : Int) (blocks : List (List Str)) (hwf : ∀ b ∈ blocks, wfBlock b) :
    Eager.print_msgs_from_xml P (blocks.map (fun b => b.flatten)).flatten haf pf re eh now =
      List.foldl (stepFrag (Eager.handleFragment P haf pf re eh now)) ⟨[], none⟩
        (blocks.map (fun b => b.flatten)) := by
  unfold Eager.print_msgs_from_xml
  rw [splitMsg_blocks blocks hwf, List.foldl_cons]
  have h0 : Eager.print_step (Eager.handleFragment P haf pf re eh now) ⟨[], none⟩ [] =
      ⟨[], none⟩ := by
    unfold Eager.print_step
    simp [stripIsEmpty]
  rw [h0]
  exact eager_fold_blocks _ blocks ⟨[], none⟩ hwf

theorem lowmem_block_lines (h : Str → Except PyErr (Option Str)) :
    ∀ (b : List Str) (acc : List Str) (res : RunResult),
      res.err = none → b ≠ [] →
      (∀ l ∈ b.dropLast, containsSub msgEnd l = false) →
      containsSub msgEnd (b.getLastD []) = true →
      List.foldl (LowMem.lowmem_step h) ⟨acc, res⟩ b =
        ⟨[], stepFrag h res (acc ++ b).flatten⟩ := by
  intro b
  induction b with
  | nil => intro acc res _ hne _ _; exact absurd rfl hne
  | cons l b' ih =>
    intro acc res hres hne hmid hlast
    rw [List.foldl_cons]
    have hres' : res.err.isSome = false := by rw [hres]; rfl
    cases b' with
    | nil =>
      have hm : containsSub msgEnd l = true := hlast
      have hstep : LowMem.lowmem_step h ⟨acc, res⟩ l =
          ⟨[], stepFrag h res ((acc ++ [l]).flatten)⟩ := by
        unfold LowMem.lowmem_step
        simp only [hres', Bool.false_eq_true, if_false, hm, if_true]
      rw [hstep, List.foldl_nil]
    | cons l2 b'' =>
      have hl : containsSub msgEnd l = false := by
        apply hmid l
        rw [List.dropLast_cons₂]
        exact List.mem_cons_self l _
      have hstep : LowMem.lowmem_step h ⟨acc, res⟩ l = ⟨acc ++ [l], res⟩ := by
        unfold LowMem.lowmem_step
        simp only [hres', Bool.false_eq_true, if_false, hl]
      rw [hstep]
      have hmid' : ∀ x ∈ (l2 :: b'').dropLast, containsSub msgEnd x = false := by
        intro x hx
        apply hmid x
        rw [List.dropLast_cons₂]
        exact List.mem_cons_of_mem l hx
      have hlast' : containsSub msgEnd ((l2 :: b'').getLastD []) = true := by
        have hg : (l :: l2 :: b'').getLastD [] = (l2 :: b'').getLastD [] := by
          rw [List.getLastD_cons]
          exact getLastD_of_ne_nil (l2 :: b'') (List.cons_ne_nil l2 b'') l []
        rw [← hg]
        exact hlast
      rw [ih (acc ++ [l]) res hres (List.cons_ne_nil l2 b'') hmid' hlast']
      rw [List.append_assoc]
      rfl

theorem lowmem_fold_blocks (h : Str → Except PyErr (Option Str)) :
    ∀ (blocks : List (List Str)) (res : RunResult),
      (∀ b ∈ blocks, b ≠ [] ∧ (∀ l ∈ b.dropLast, containsSub msgEnd l = false) ∧
        containsSub msgEnd (b.getLastD []) = true) →
      List.foldl (LowMem.lowmem_step h) ⟨[], res⟩ blocks.flatten =
        ⟨[], List.foldl (stepFrag h) res (blocks.map (fun b => b.flatten))⟩ := by
  intro blocks
  induction blocks with
  | nil => intro res _; rfl
  | cons b rest ih =>
    intro res hwf
    obtain ⟨hne, hmid, hlast⟩ := hwf b (List.mem_cons_self b rest)
    rw [List.flatten_cons, List.foldl_append, List.map_cons, List.foldl_cons]
    by_cases hres : res.err = none
    · rw [lowmem_block_lines h b [] res hres hne hmid hlast, List.nil_append]
      exact ih (stepFrag h res b.flatten) (fun x hx => hwf x (List.mem_cons_of_mem b hx))
    · have hs : res.err.isSome = true := by
        cases he : res.err with
        | none => exact absurd he hres
        | some e => rfl
      rw [lowmem_fold_frozen h b ⟨[], res⟩ hs, stepFrag_frozen h res b.flatten hs]
      exact ih res (fun x hx => hwf x (List.mem_cons_of_mem b hx))

theorem handleFragment_agree (P : Str → Except Unit XmlElem) (haf pf : Option Str)
    (re : Bool) (eh now : Int) (frag : Str) :
    LowMem.handleFragment P haf pf none none none none re eh now frag =
    Eager.handleFragment P haf pf re eh now frag := by
  unfold LowMem.handleFragment Eager.handleFragment
  cases hp : process_msg P frag with
  | error e => cases e <;> rfl
  | ok m => rfl

/-- C1: on a well-formed, non-truncated input stream (a concatenation of
well-formed record blocks), the eager whole-file strategy (split on the
`"<msg"` start marker) and the incremental line-buffered strategy (flush on
a line containing `"</msg>"`) produce the same sequence of output lines for
the same host/pid/recency filters (the incremental variant's extra filters
left unconstrained) — and the same uncaught-exception outcome. -/
theorem c1_eager_equals_incremental (P : Str → Except Unit XmlElem) (haf pf : Option Str)
    (re : Bool) (eh now : Int) (lines : List Str) (blocks : List (List Str))
    (hjoin : lines = blocks.flatten) (hwf : ∀ b ∈ blocks, wfBlock b) :
    (Eager.print_msgs_from_xml P lines.flatten haf pf re eh now).out =
      (LowMem.print_msgs_from_xml P lines haf pf none none none none re eh now).res.out ∧
    (Eager.print_msgs_from_xml P lines.flatten haf pf re eh now).err =
      (LowMem.print_msgs_from_xml P lines haf pf none none none none re eh now).res.err := by
  subst hjoin
  have hcontent : blocks.flatten.flatten = (blocks.map (fun b => b.flatten)).flatten :=
    flatten_flatten blocks
  have he := eager_run_blocks P haf pf re eh now blocks hwf
  have hl := lowmem_fold_blocks
    (LowMem.handleFragment P haf pf none none none none re eh now) blocks ⟨[], none⟩
    (fun b hb => ⟨(hwf b hb).1, (hwf b hb).2.2.2.1, (hwf b hb).2.2.2.2⟩)
  have hagree : LowMem.handleFragment P haf pf none none none none re eh now =
      Eager.handleFragment P haf pf re eh now :=
    funext (handleFragment_agree P haf pf re eh now)
  have hlm : LowMem.print_msgs_from_xml P blocks.flatten haf pf none none none none re eh now =
      ⟨[], List.foldl (stepFrag (Eager.handleFragment P haf pf re eh now)) ⟨[], none⟩
        (blocks.map (fun b => b.flatten))⟩ := by
    unfold LowMem.print_msgs_from_xml
    rw [hagree] at hl
    exact hl
  rw [hcontent, he, hlm]
  exact ⟨rfl, rfl⟩

end Bridging

section C1Witness

/-- A concrete well-formed two-record stream for the C1 witness, as blocks. -/
def c1Blocks : List (List Str) :=
  [["<msg time='2023-09-11T10:00:00' host_addr='10.1.1.1' pid='7'>\n".toList,
    " <txt>TNS-12541: no listener\n".toList,
    " </txt>\n".toList,
    "</msg>\n".toList],
   ["<msg time='2023-09-11T10:05:00' host_addr='10.1.1.2' pid='8'>\n".toList,
    " <txt>service check ok\n".toList,
    " </txt>\n".toList,
    "</msg>\n".toList]]

/-- Witness for C1 on the concrete stream `c1Blocks.flatten`, with a
host-address filter and no recency mode. -/
theorem c1_eager_equals_incremental_witness :
    (c1Blocks.flatten = c1Blocks.flatten ∧ ∀ b ∈ c1Blocks, wfBlock b) ∧
    ((Eager.print_msgs_from_xml lxmlFromstring c1Blocks.flatten.flatten
        (some ("10.1.1.1".toList)) none false 24 0).out =
      (LowMem.print_msgs_from_xml lxmlFromstring c1Blocks.flatten
        (some ("10.1.1.1".toList)) none none none none none false 24 0).res.out ∧
    (Eager.print_msgs_from_xml lxmlFromstring c1Blocks.flatten.flatten
        (some ("10.1.1.1".toList)) none false 24 0).err =
      (LowMem.print_msgs_from_xml lxmlFromstring c1Blocks.flatten
        (some ("10.1.1.1".toList)) none none none none none false 24 0).res.err) :=
  ⟨⟨rfl, by decide⟩,
    c1_eager_equals_incremental lxmlFromstring (some ("10.1.1.1".toList)) none false 24 0
      c1Blocks.flatten c1Blocks rfl (by decide)⟩

end C1Witness

section C3

theorem handleFragment_eager_skip_syntax (P : Str → Except Unit XmlElem)
    (haf pf : Option Str) (re : Bool) (eh now : Int) (frag : Str)
    (h : P frag = .error ()) :
    Eager.handleFragment P haf pf re eh now frag = .ok none := by
  unfold Eager.handleFragment process_msg
  rw [h]

theorem handleFragment_eager_emit_plain (P : Str → Except Unit XmlElem) (eh now : Int)
    (frag : Str) (m : ProcessedMsg) (t : Str)
    (h : process_msg P frag = .ok m) (ht : m.txt = some t) :
    Eager.handleFragment P none none false eh now frag =
      .ok (some (renderMsg m (cleanTxt t))) := by
  unfold Eager.handleFragment
  rw [h]
  simp [filterRejects, ht]

/-- C3: a structurally malformed fragment interleaved between two
well-formed, fully decodable fragments is silently skipped by the decoder
(`XMLSyntaxError` is caught and the loop continues): neither strategy
aborts, and both surrounding records are still decoded, pass the (empty)
filters, and are emitted, in both the eager and the incremental variant. -/
theorem c3_malformed_between_wellformed_skipped (P : Str → Except Unit XmlElem) (now : Int)
    (b1 b2 b3 : List Str) (m1 m3 : ProcessedMsg) (t1 t3 : Str)
    (hwf1 : wfBlock b1) (hwf2 : wfBlock b2) (hwf3 : wfBlock b3)
    (h1 : process_msg P b1.flatten = .ok m1) (ht1 : m1.txt = some t1)
    (h2 : P b2.flatten = .error ())
    (h3 : process_msg P b3.flatten = .ok m3) (ht3 : m3.txt = some t3) :
    Eager.print_msgs_from_xml P ([b1, b2, b3].flatten).flatten none none false 24 now =
      ⟨[renderMsg m1 (cleanTxt t1), renderMsg m3 (cleanTxt t3)], none⟩ ∧
    (LowMem.print_msgs_from_xml P [b1, b2, b3].flatten
        none none none none none none false 24 now).res =
      ⟨[renderMsg m1 (cleanTxt t1), renderMsg m3 (cleanTxt t3)], none⟩ := by
  have hwf : ∀ b ∈ [b1, b2, b3], wfBlock b := by
    intro b hb
    simp only [List.mem_cons, List.not_mem_nil, or_false] at hb
    rcases hb with rfl | rfl | rfl
    · exact hwf1
    · exact hwf2
    · exact hwf3
  have hE1 := handleFragment_eager_emit_plain P 24 now b1.flatten m1 t1 h1 ht1
  have hE2 := handleFragment_eager_skip_syntax P none none false 24 now b2.flatten h2
  have hE3 := handleFragment_eager_emit_plain P 24 now b3.flatten m3 t3 h3 ht3
  have hfold : List.foldl (stepFrag (Eager.handleFragment P none none false 24 now)) ⟨[], none⟩
      ([b1, b2, b3].map (fun b => b.flatten)) =
      ⟨[renderMsg m1 (cleanTxt t1), renderMsg m3 (cleanTxt t3)], none⟩ := by
    rw [List.map_cons, List.map_cons, List.map_cons, List.map_nil]
    rw [List.foldl_cons, List.foldl_cons, List.foldl_cons, List.foldl_nil]
    unfold stepFrag
    simp only [hE1, hE2, hE3, Option.isSome_none, Bool.false_eq_true, if_false,
      List.nil_append]
    rfl
  constructor
  · have he := eager_run_blocks P none none false 24 now [b1, b2, b3] hwf
    rw [flatten_flatten, he, hfold]
  · have hl := lowmem_fold_blocks
      (LowMem.handleFragment P none none none none none none false 24 now) [b1, b2, b3]
      ⟨[], none⟩ (fun b hb => ⟨(hwf b hb).1, (hwf b hb).2.2.2.1, (hwf b hb).2.2.2.2⟩)
    have hagree : LowMem.handleFragment P none none none none none none false 24 now =
        Eager.handleFragment P none none false 24 now :=
      funext (handleFragment_agree P none none false 24 now)
    unfold LowMem.print_msgs_from_xml
    rw [hagree] at hl
    rw [hagree, hl, hfold]


/-- First well-formed block of the C3 witness stream. -/
def c3B1 : List Str :=
  ["<msg time='2023-09-11T10:00:00' host_addr='10.1.1.1' pid='7'>\n".toList,
   " <txt>first record\n".toList,
   " </txt>\n".toList,
   "</msg>\n".toList]

/-- The structurally malformed middle block of the C3 witness stream (an
attribute with no value). -/
def c3B2 : List Str := ["<msg bad attr></msg>\n".toList]

/-- Second well-formed block of the C3 witness stream. -/
def c3B3 : List Str :=
  ["<msg time='2023-09-11T10:05:00' host_addr='10.1.1.2' pid='8'>\n".toList,
   " <txt>third record\n".toList,
   " </txt>\n".toList,
   "</msg>\n".toList]

/-- The decoded text of the first C3 witness record. -/
def c3T1 : Str := "first record\n ".toList

/-- The decoded text of the last C3 witness record. -/
def c3T3 : Str := "third record\n ".toList

/-- The decoded first C3 witness record. -/
def c3M1 : ProcessedMsg :=
  { log_time := some ⟨2023, 9, 11, 10, 0, 0⟩
    host_addr := some ("10.1.1.1".toList)
    pid := some ("7".toList)
    txt := some c3T1
    org_id := none
    comp_id := none
    msg_type := none
    level := none
    host_id := none }

/-- The decoded last C3 witness record. -/
def c3M3 : ProcessedMsg :=
  { log_time := some ⟨2023, 9, 11, 10, 5, 0⟩
    host_addr := some ("10.1.1.2".toList)
    pid := some ("8".toList)
    txt := some c3T3
    org_id := none
    comp_id := none
    msg_type := none
    level := none
    host_id := none }

/-- Witness for C3 on the concrete three-block stream. -/
theorem c3_malformed_between_wellformed_skipped_witness :
    (wfBlock c3B1 ∧ wfBlock c3B2 ∧ wfBlock c3B3 ∧
      process_msg lxmlFromstring c3B1.flatten = .ok c3M1 ∧ c3M1.txt = some c3T1 ∧
      lxmlFromstring c3B2.flatten = .error () ∧
      process_msg lxmlFromstring c3B3.flatten = .ok c3M3 ∧ c3M3.txt = some c3T3) ∧
    (Eager.print_msgs_from_xml lxmlFromstring ([c3B1, c3B2, c3B3].flatten).flatten
        none none false 24 0 =
      ⟨[renderMsg c3M1 (cleanTxt c3T1), renderMsg c3M3 (cleanTxt c3T3)], none⟩ ∧
    (LowMem.print_msgs_from_xml lxmlFromstring [c3B1, c3B2, c3B3].flatten
        none none none none none none false 24 0).res =
      ⟨[renderMsg c3M1 (cleanTxt c3T1), renderMsg c3M3 (cleanTxt c3T3)], none⟩) :=
  ⟨⟨by decide, by decide, by decide, rfl, rfl, rfl, rfl, rfl⟩,
    c3_malformed_between_wellformed_skipped lxmlFromstring 0 c3B1 c3B2 c3B3 c3M1 c3M3 c3T1 c3T3
      (by decide) (by decide) (by decide) rfl rfl rfl rfl rfl⟩

end C3

section C7

/-- "Now" for the C7 scenario: 2023-09-11 12:00:00. -/
def c7Now : Int := (PyDateTime.mk 2023 9 11 12 0 0).toSeconds

/-- The C7 scenario stream: one record with error text (`TNS-…`)
timestamped one hour before `c7Now`, one record with non-error text
timestamped two days before `c7Now`. -/
def c7Content : Str :=
  ("<msg time='2023-09-11T11:00:00' host_addr='10.1.1.1' pid='123'>\n" ++
   " <txt>TNS-12541: connection refused\n" ++
   " </txt>\n" ++
   "</msg>\n" ++
   "<msg time='2023-09-09T12:00:00' host_addr='10.1.1.2' pid='456'>\n" ++
   " <txt>routine status\n" ++
   " </txt>\n" ++
   "</msg>\n").toList

/-- The decoded text of the first C7 scenario record. -/
def c7T1 : Str := "TNS-12541: connection refused\n ".toList

/-- The decoded first C7 scenario record. -/
def c7M1 : ProcessedMsg :=
  { log_time := some ⟨2023, 9, 11, 11, 0, 0⟩
    host_addr := some ("10.1.1.1".toList)
    pid := some ("123".toList)
    txt := some c7T1
    org_id := none
    comp_id := none
    msg_type := none
    level := none
    host_id := none }

/-- C7: in recent-errors mode, a decoded record (passing the equality
filters) is emitted if and only if its free-text body contains one of the
fixed case-sensitive markers `"TNS-"`/`"Error"` AND its parsed time is
within the horizon of now (the body-text check is the outer, earlier
guard in the source); and on the concrete two-record scenario stream —
error text one hour old, non-error text two days old — the default
24-hour run emits exactly the one line for the first record. -/
theorem c7_recent_errors_emission (P : Str → Except Unit XmlElem) (haf pf : Option Str)
    (eh now : Int) (frag : Str) (m : ProcessedMsg) (t : Str)
    (hok : process_msg P frag = .ok m) (ht : m.txt = some t)
    (hhf : filterRejects haf m.host_addr = false)
    (hpf : filterRejects pf m.pid = false) :
    (Eager.handleFragment P haf pf true eh now frag =
        .ok (some (renderMsg m (cleanTxt t))) ↔
      ((containsSub tnsMarker t || containsSub errorMarker t) = true ∧
        is_recent_error now (m.log_time.map PyDateTime.toSeconds) eh = true)) ∧
    Eager.print_msgs_from_xml lxmlFromstring c7Content none none true 24 c7Now =
      ⟨[renderMsg c7M1 (cleanTxt c7T1)], none⟩ := by
  constructor
  · unfold Eager.handleFragment
    simp only [hok, hhf, hpf, ht, Bool.false_eq_true, if_false, eq_self_iff_true, if_true]
    cases hmk : containsSub tnsMarker t || containsSub errorMarker t with
    | false => simp
    | true =>
      cases hrc : is_recent_error now (m.log_time.map PyDateTime.toSeconds) eh with
      | false => simp
      | true => simp
  · rfl

end C7

section C7Witness

/-- The first C7 scenario record as one fragment string. -/
def c7Frag1 : Str :=
  ("<msg time='2023-09-11T11:00:00' host_addr='10.1.1.1' pid='123'>\n" ++
   " <txt>TNS-12541: connection refused\n" ++
   " </txt>\n" ++
   "</msg>\n").toList

/-- Witness for C7 at the concrete first scenario fragment, with the
default 24-hour horizon. -/
theorem c7_recent_errors_emission_witness :
    (process_msg lxmlFromstring c7Frag1 = .ok c7M1 ∧ c7M1.txt = some c7T1 ∧
      filterRejects none c7M1.host_addr = false ∧ filterRejects none c7M1.pid = false) ∧
    ((Eager.handleFragment lxmlFromstring none none true 24 c7Now c7Frag1 =
        .ok (some (renderMsg c7M1 (cleanTxt c7T1))) ↔
      ((containsSub tnsMarker c7T1 || containsSub errorMarker c7T1) = true ∧
        is_recent_error c7Now (c7M1.log_time.map PyDateTime.toSeconds) 24 = true)) ∧
    Eager.print_msgs_from_xml lxmlFromstring c7Content none none true 24 c7Now =
      ⟨[renderMsg c7M1 (cleanTxt c7T1)], none⟩) :=
  ⟨⟨rfl, rfl, rfl, rfl⟩,
    c7_recent_errors_emission lxmlFromstring none none 24 c7Now c7Frag1 c7M1 c7T1
      rfl rfl rfl rfl⟩

end C7Witness

section C5

/-- A record fragment whose `time` attribute is absent (txt contains an
error marker, so only the timestamp handling is at stake). -/
def c5FragNoTime : Str :=
  ("<msg host_addr='10.1.1.1' pid='1'>\n" ++
   " <txt>TNS-00000 probe\n" ++
   " </txt>\n" ++
   "</msg>\n").toList

/-- The same absent-`time` record as a line stream. -/
def c5NoTimeLines : List Str :=
  ["<msg host_addr='10.1.1.1' pid='1'>\n".toList,
   " <txt>TNS-00000 probe\n".toList,
   " </txt>\n".toList,
   "</msg>\n".toList]

/-- A record fragment whose `time` attribute is present but not parseable
against `'%Y-%m-%dT%H:%M:%S'`. -/
def c5FragBadTime : Str :=
  ("<msg time='today' host_addr='10.1.1.1' pid='1'>\n" ++
   " <txt>TNS-00000 probe\n" ++
   " </txt>\n" ++
   "</msg>\n").toList

/-- The decoded bad-timestamp record: `log_time` is Python `None`. -/
def c5MBad : ProcessedMsg :=
  { log_time := none
    host_addr := some ("10.1.1.1".toList)
    pid := some ("1".toList)
    txt := some ("TNS-00000 probe\n ".toList)
    org_id := none
    comp_id := none
    msg_type := none
    level := none
    host_id := none }

/-- C5: what the code actually does on the two timestamp failure modes.
A record whose `time` attribute is present but unparseable decodes with
`log_time = None`, fails the recency constraint and is silently skipped in
recent-errors mode (as the claim says).  But a record whose `time`
attribute is ABSENT makes `time_str.split('.')` raise an uncaught
`AttributeError` (`None` has no `split`; only `ValueError` is handled), so
the recency constraint is never evaluated and the whole run aborts instead
of skipping the record — in both the incremental and the eager variant. -/
theorem c5_absent_timestamp_aborts_run :
    process_msg lxmlFromstring c5FragNoTime = .error .attributeError ∧
    (LowMem.print_msgs_from_xml lxmlFromstring c5NoTimeLines none none none none none none
        true 24 0).res = ⟨[], some .attributeError⟩ ∧
    Eager.print_msgs_from_xml lxmlFromstring c5FragNoTime none none true 24 0 =
      ⟨[], some .attributeError⟩ ∧
    process_msg lxmlFromstring c5FragBadTime = .ok c5MBad ∧
    c5MBad.log_time = none ∧
    is_recent_error 0 (c5MBad.log_time.map PyDateTime.toSeconds) 24 = false ∧
    Eager.print_msgs_from_xml lxmlFromstring c5FragBadTime none none true 24 0 = ⟨[], none⟩ ∧
    (LowMem.print_msgs_from_xml lxmlFromstring
        [c5FragBadTime] none none none none none none true 24 0).res = ⟨[], none⟩ :=
  ⟨rfl, rfl, rfl, rfl, rfl, rfl, rfl, rfl⟩

end C5

section C8Helpers

theorem mem_pySetInsert (s : List Str) (x a : Str) :
    a ∈ pySetInsert s x ↔ a ∈ s ∨ a = x := by
  unfold pySetInsert
  by_cases hx : x ∈ s
  · rw [if_pos hx]
    constructor
    · exact fun h => Or.inl h
    · rintro (h | rfl)
      · exact h
      · exact hx
  · rw [if_neg hx]
    simp

theorem nodup_pySetInsert (s : List Str) (x : Str) (h : s.Nodup) :
    (pySetInsert s x).Nodup := by
  unfold pySetInsert
  by_cases hx : x ∈ s
  · rwa [if_pos hx]
  · rw [if_neg hx, List.nodup_append]
    exact ⟨h, List.nodup_singleton x, by simpa using hx⟩

theorem pySorted_sorted (l : List Str) : (pySorted l).Sorted strLe :=
  List.sorted_insertionSort strLe l

theorem mem_pySorted (l : List Str) (a : Str) : a ∈ pySorted l ↔ a ∈ l :=
  (List.perm_insertionSort strLe l).mem_iff

theorem pySorted_nodup (l : List Str) (h : l.Nodup) : (pySorted l).Nodup :=
  ((List.perm_insertionSort strLe l).nodup_iff).mpr h

/-- The per-fragment set update of the distinct-hosts aggregators, written
through the designated-field extraction. -/
def collectHost (P : Str → Except Unit XmlElem) (s : List Str) (f : Str) : List Str :=
  match hostOfFrag P f with
  | some h => pySetInsert s h
  | none => s

theorem mem_collect_fold (P : Str → Except Unit XmlElem) :
    ∀ (frags : List Str) (set : List Str) (a : Str),
      a ∈ frags.foldl (collectHost P) set ↔
        a ∈ set ∨ ∃ f ∈ frags, hostOfFrag P f = some a := by
  intro frags
  induction frags with
  | nil => intro set a; simp
  | cons f rest ih =>
    intro set a
    rw [List.foldl_cons]
    cases hf : hostOfFrag P f with
    | none =>
      have hstep : collectHost P set f = set := by
        unfold collectHost
        rw [hf]
      rw [hstep, ih]
      constructor
      · rintro (h | h)
        · exact Or.inl h
        · exact Or.inr (by
            obtain ⟨g, hg, hga⟩ := h
            exact ⟨g, List.mem_cons_of_mem f hg, hga⟩)
      · rintro (h | ⟨g, hg, hga⟩)
        · exact Or.inl h
        · cases hg with
          | head =>
            rw [hf] at hga
            cases hga
          | tail _ hg => exact Or.inr ⟨g, hg, hga⟩
    | some h0 =>
      have hstep : collectHost P set f = pySetInsert set h0 := by
        unfold collectHost
        rw [hf]
      rw [hstep, ih]
      constructor
      · rintro (h | h)
        · rcases (mem_pySetInsert set h0 a).mp h with h | rfl
          · exact Or.inl h
          · exact Or.inr ⟨f, List.mem_cons_self f rest, hf⟩
        · obtain ⟨g, hg, hga⟩ := h
          exact Or.inr ⟨g, List.mem_cons_of_mem f hg, hga⟩
      · rintro (h | ⟨g, hg, hga⟩)
        · exact Or.inl ((mem_pySetInsert set h0 a).mpr (Or.inl h))
        · cases hg with
          | head =>
            rw [hf] at hga
            injection hga with hga
            exact Or.inl ((mem_pySetInsert set h0 a).mpr (Or.inr hga.symm))
          | tail _ hg => exact Or.inr ⟨g, hg, hga⟩

theorem nodup_collect_fold (P : Str → Except Unit XmlElem) :
    ∀ (frags : List Str) (set : List Str), set.Nodup →
      (frags.foldl (collectHost P) set).Nodup := by
  intro frags
  induction frags with
  | nil => intro set h; exact h
  | cons f rest ih =>
    intro set h
    rw [List.foldl_cons]
    cases hf : hostOfFrag P f with
    | none =>
      have hstep : collectHost P set f = set := by
        unfold collectHost
        rw [hf]
      rw [hstep]
      exact ih set h
    | some h0 =>
      have hstep : collectHost P set f = pySetInsert set h0 := by
        unfold collectHost
        rw [hf]
      rw [hstep]
      exact ih _ (nodup_pySetInsert set h0 h)

theorem lu_flush_set (P : Str → Except Unit XmlElem) (frag : Str) (s : List Str) :
    (match P frag with
     | .error _ => s
     | .ok tree =>
       match tree.get ("host_addr".toList) with
       | none => s
       | some h => if h.isEmpty then s else pySetInsert s h) =
    collectHost P s frag := by
  unfold collectHost hostOfFrag
  cases hP : P frag with
  | error e => rfl
  | ok tree =>
    simp only []
    cases hg : tree.get ("host_addr".toList) with
    | none => rfl
    | some h =>
      simp only []
      by_cases hh : h.isEmpty
      · rw [if_pos hh, if_pos hh]
      · rw [if_neg hh, if_neg hh]

theorem fragsAux_cons (buf : List Str) (l : Str) (rest : List Str) :
    fragsAux buf (l :: rest) =
      if containsSub msgEnd l then (buf ++ [l]).flatten :: fragsAux [] rest
      else fragsAux (buf ++ [l]) rest := rfl

theorem lu_set_fold (P : Str → Except Unit XmlElem) :
    ∀ (lines : List Str) (set buf : List Str),
      (List.foldl (LowMem.lu_step P) (set, buf) lines).1 =
        (fragsAux buf lines).foldl (collectHost P) set := by
  intro lines
  induction lines with
  | nil => intro set buf; rfl
  | cons l rest ih =>
    intro set buf
    rw [List.foldl_cons]
    by_cases hm : containsSub msgEnd l
    · have hstep : LowMem.lu_step P (set, buf) l =
          (collectHost P set ((buf ++ [l]).flatten), []) := by
        unfold LowMem.lu_step
        rw [if_pos hm, lu_flush_set]
      rw [hstep, ih _ [], fragsAux_cons, if_pos hm, List.foldl_cons]
    · have hstep : LowMem.lu_step P (set, buf) l = (set, buf ++ [l]) := by
        unfold LowMem.lu_step
        rw [if_neg hm]
      rw [hstep, fragsAux_cons, if_neg hm]
      exact ih set (buf ++ [l])

end C8Helpers

section C8Eager

/-- The designated-field extraction of the eager distinct-hosts loop on one
split piece: the non-empty `host_addr` of a piece that is not blank and
fully decodes. -/
def eagerHostOf (P : Str → Except Unit XmlElem) (piece : Str) : Option Str :=
  if stripIsEmpty piece then none
  else
    match process_msg P (msgStart ++ piece) with
    | .ok m =>
      match m.host_addr with
      | none => none
      | some h => if h.isEmpty then none else some h
    | .error _ => none

/-- The uncaught exception the eager distinct-hosts loop body raises on one
split piece, if any: any `process_msg` failure other than the caught
`XMLSyntaxError`. -/
def eagerErrOf (P : Str → Except Unit XmlElem) (piece : Str) : Option PyErr :=
  if stripIsEmpty piece then none
  else
    match process_msg P (msgStart ++ piece) with
    | .error .xmlSyntaxError => none
    | .error e => some e
    | .ok _ => none

theorem eager_lu_step_eq (P : Str → Except Unit XmlElem) (set : List Str) (piece : Str) :
    Eager.lu_step P (set, none) piece =
      ((match eagerHostOf P piece with
        | some h => pySetInsert set h
        | none => set), eagerErrOf P piece) := by
  unfold Eager.lu_step eagerHostOf eagerErrOf
  simp only [Option.isSome_none, Bool.false_eq_true, if_false]
  by_cases hs : stripIsEmpty piece
  · simp only [hs, if_true]
  · simp only [hs, Bool.false_eq_true, if_false]
    cases hpm : process_msg P (msgStart ++ piece) with
    | error e => cases e <;> rfl
    | ok m =>
      simp only []
      cases hha : m.host_addr with
      | none => rfl
      | some h =>
        simp only []
        by_cases hh : h.isEmpty
        · rw [if_pos hh, if_pos hh]
        · rw [if_neg hh, if_neg hh]

theorem eager_lu_step_frozen (P : Str → Except Unit XmlElem)
    (st : List Str × Option PyErr) (piece : Str) (he : st.2.isSome = true) :
    Eager.lu_step P st piece = st := by
  unfold Eager.lu_step
  rw [if_pos he]

theorem eager_lu_fold_frozen (P : Str → Except Unit XmlElem) :
    ∀ (pieces : List Str) (st : List Str × Option PyErr), st.2.isSome = true →
      List.foldl (Eager.lu_step P) st pieces = st := by
  intro pieces
  induction pieces with
  | nil => intro st _; rfl
  | cons p rest ih =>
    intro st he
    rw [List.foldl_cons, eager_lu_step_frozen P st p he]
    exact ih st he

theorem eager_lu_fold_mem (P : Str → Except Unit XmlElem) :
    ∀ (pieces : List Str) (set : List Str),
      (List.foldl (Eager.lu_step P) (set, none) pieces).2 = none →
      ∀ a, a ∈ (List.foldl (Eager.lu_step P) (set, none) pieces).1 ↔
        a ∈ set ∨ ∃ p ∈ pieces, eagerHostOf P p = some a := by
  intro pieces
  induction pieces with
  | nil => intro set _ a; simp
  | cons p rest ih =>
    intro set hok a
    rw [List.foldl_cons, eager_lu_step_eq] at hok ⊢
    cases herr : eagerErrOf P p with
    | some e =>
      exfalso
      rw [herr] at hok
      have hfrozen := eager_lu_fold_frozen P rest
        ((match eagerHostOf P p with
          | some h => pySetInsert set h
          | none => set), some e) rfl
      rw [hfrozen] at hok
      cases hok
    | none =>
      rw [herr] at hok
      cases hh : eagerHostOf P p with
      | none =>
        rw [hh] at hok
        rw [ih set hok]
        constructor
        · rintro (h | ⟨g, hg, hga⟩)
          · exact Or.inl h
          · exact Or.inr ⟨g, List.mem_cons_of_mem p hg, hga⟩
        · rintro (h | ⟨g, hg, hga⟩)
          · exact Or.inl h
          · cases hg with
            | head =>
              rw [hh] at hga
              cases hga
            | tail _ hg => exact Or.inr ⟨g, hg, hga⟩
      | some h0 =>
        rw [hh] at hok
        rw [ih _ hok]
        constructor
        · rintro (h | ⟨g, hg, hga⟩)
          · rcases (mem_pySetInsert set h0 a).mp h with h | rfl
            · exact Or.inl h
            · exact Or.inr ⟨p, List.mem_cons_self p rest, hh⟩
          · exact Or.inr ⟨g, List.mem_cons_of_mem p hg, hga⟩
        · rintro (h | ⟨g, hg, hga⟩)
          · exact Or.inl ((mem_pySetInsert set h0 a).mpr (Or.inl h))
          · cases hg with
            | head =>
              rw [hh] at hga
              injection hga with hga
              exact Or.inl ((mem_pySetInsert set h0 a).mpr (Or.inr hga.symm))
            | tail _ hg => exact Or.inr ⟨g, hg, hga⟩

theorem eager_lu_step_set (P : Str → Except Unit XmlElem)
    (st : List Str × Option PyErr) (piece : Str) :
    (Eager.lu_step P st piece).1 = st.1 ∨
      ∃ h, (Eager.lu_step P st piece).1 = pySetInsert st.1 h := by
  unfold Eager.lu_step
  by_cases he : st.2.isSome = true
  · rw [if_pos he]
    exact Or.inl rfl
  · rw [if_neg he]
    by_cases hs : stripIsEmpty piece
    · rw [if_pos hs]
      exact Or.inl rfl
    · rw [if_neg hs]
      cases process_msg P (msgStart ++ piece) with
      | error e => cases e <;> simp
      | ok m =>
        simp only []
        cases hha : m.host_addr with
        | none => exact Or.inl rfl
        | some h =>
          by_cases hh : h.isEmpty
          · left
            simp [hh]
          · right
            exact ⟨h, by simp [hh]⟩

theorem eager_lu_fold_nodup (P : Str → Except Unit XmlElem) :
    ∀ (pieces : List Str) (st : List Str × Option PyErr), st.1.Nodup →
      ((List.foldl (Eager.lu_step P) st pieces).1).Nodup := by
  intro pieces
  induction pieces with
  | nil => intro st h; exact h
  | cons p rest ih =>
    intro st h
    rw [List.foldl_cons]
    rcases eager_lu_step_set P st p with hset | ⟨h0, hset⟩
    · exact ih _ (by rw [hset]; exact h)
    · exact ih _ (by rw [hset]; exact nodup_pySetInsert st.1 h0 h)

theorem eagerHostOf_eq_some (P : Str → Except Unit XmlElem) (p a : Str) :
    eagerHostOf P p = some a ↔
      stripIsEmpty p = false ∧ ∃ m, process_msg P (msgStart ++ p) = .ok m ∧
        m.host_addr = some a ∧ a.isEmpty = false := by
  unfold eagerHostOf
  by_cases hs : stripIsEmpty p
  · simp [hs]
  · rw [if_neg hs]
    cases hpm : process_msg P (msgStart ++ p) with
    | error e =>
      constructor
      · intro hcon
        cases hcon
      · rintro ⟨-, m', hm', -, -⟩
        cases hm'
    | ok m =>
      simp only []
      cases hha : m.host_addr with
      | none =>
        constructor
        · intro hcon
          cases hcon
        · rintro ⟨-, m', hm', hha', -⟩
          injection hm' with hm'
          subst hm'
          rw [hha] at hha'
          cases hha'
      | some h =>
        simp only []
        by_cases hh : h.isEmpty
        · rw [if_pos hh]
          constructor
          · intro hcon
            cases hcon
          · rintro ⟨-, m', hm', hha', hae⟩
            injection hm' with hm'
            subst hm'
            rw [hha] at hha'
            injection hha' with hha'
            subst hha'
            rw [hh] at hae
            cases hae
        · rw [if_neg hh]
          constructor
          · intro hcon
            injection hcon with hcon
            subst hcon
            refine ⟨by simpa using hs, m, rfl, hha, by simpa using hh⟩
          · rintro ⟨-, m', hm', hha', -⟩
            injection hm' with hm'
            subst hm'
            rw [hha] at hha'
            injection hha' with hha'
            rw [hha']

theorem hostOfFrag_eq_some (P : Str → Except Unit XmlElem) (f a : Str) :
    hostOfFrag P f = some a ↔
      ∃ e, P f = .ok e ∧ e.get ("host_addr".toList) = some a ∧ a.isEmpty = false := by
  unfold hostOfFrag
  cases hP : P f with
  | error e =>
    constructor
    · intro hcon
      cases hcon
    · rintro ⟨e', he', -, -⟩
      cases he'
  | ok tree =>
    simp only []
    cases hg : tree.get ("host_addr".toList) with
    | none =>
      constructor
      · intro hcon
        cases hcon
      · rintro ⟨e', he', hge', -⟩
        injection he' with he'
        subst he'
        rw [hg] at hge'
        cases hge'
    | some h =>
      simp only []
      by_cases hh : h.isEmpty
      · rw [if_pos hh]
        constructor
        · intro hcon
          cases hcon
        · rintro ⟨e', he', hge', hae⟩
          injection he' with he'
          subst he'
          rw [hg] at hge'
          injection hge' with hge'
          subst hge'
          rw [hh] at hae
          cases hae
      · rw [if_neg hh]
        constructor
        · intro hcon
          injection hcon with hcon
          subst hcon
          exact ⟨tree, rfl, hg, by simpa using hh⟩
        · rintro ⟨e', he', hge', -⟩
          injection he' with he'
          subst he'
          rw [hg] at hge'
          injection hge' with hge'
          rw [hge']


end C8Eager

section C8Claim

/-- C8 (amended): in distinct-hosts mode the output of the incremental
variant is, for EVERY input stream, exactly the lexicographically sorted,
duplicate-free set of the non-empty `host_addr` values of the fragments
that parse (stated as: sorted, without duplicates, and containing exactly
those values), with a clean exit; the eager variant satisfies the same
characterization over its own split pieces whenever its scan completes
without an uncaught exception (a parseable record without a `txt` child or
`time` attribute aborts it instead, see the counterexample). -/
theorem c8_distinct_hosts_sorted_set (P : Str → Except Unit XmlElem) (lines : List Str)
    (content : Str)
    (hok : (Eager.list_unique_host_addrs P content).err = none) :
    ((LowMem.list_unique_host_addrs P lines).out.Sorted strLe ∧
     (LowMem.list_unique_host_addrs P lines).out.Nodup ∧
     (∀ a, a ∈ (LowMem.list_unique_host_addrs P lines).out ↔
        ∃ f ∈ flushedFrags lines, ∃ e, P f = .ok e ∧
          e.get ("host_addr".toList) = some a ∧ a.isEmpty = false) ∧
     (LowMem.list_unique_host_addrs P lines).err = none) ∧
    ((Eager.list_unique_host_addrs P content).out.Sorted strLe ∧
     (Eager.list_unique_host_addrs P content).out.Nodup ∧
     (∀ a, a ∈ (Eager.list_unique_host_addrs P content).out ↔
        ∃ p ∈ splitMsg content, stripIsEmpty p = false ∧
          ∃ m, process_msg P (msgStart ++ p) = .ok m ∧ m.host_addr = some a ∧
            a.isEmpty = false)) := by
  constructor
  · have hset : (List.foldl (LowMem.lu_step P) ([], []) lines).1 =
        (flushedFrags lines).foldl (collectHost P) [] := lu_set_fold P lines [] []
    refine ⟨pySorted_sorted _, ?_, ?_, rfl⟩
    · apply pySorted_nodup
      rw [hset]
      exact nodup_collect_fold P (flushedFrags lines) [] List.nodup_nil
    · intro a
      unfold LowMem.list_unique_host_addrs
      rw [mem_pySorted, hset, mem_collect_fold]
      simp only [List.not_mem_nil, false_or]
      constructor
      · rintro ⟨f, hf, hfa⟩
        exact ⟨f, hf, (hostOfFrag_eq_some P f a).mp hfa⟩
      · rintro ⟨f, hf, he⟩
        exact ⟨f, hf, (hostOfFrag_eq_some P f a).mpr he⟩
  · have hfold : (List.foldl (Eager.lu_step P) ([], none) (splitMsg content)).2 = none := by
      unfold Eager.list_unique_host_addrs at hok
      simp only [] at hok
      cases hst : (List.foldl (Eager.lu_step P) ([], none) (splitMsg content)).2 with
      | none => rfl
      | some e =>
        exfalso
        rw [hst] at hok
        simp at hok
    have hout : (Eager.list_unique_host_addrs P content).out =
        pySorted ((List.foldl (Eager.lu_step P) ([], none) (splitMsg content)).1) := by
      unfold Eager.list_unique_host_addrs
      simp only []
      rw [hfold]
    refine ⟨?_, ?_, ?_⟩
    · rw [hout]
      exact pySorted_sorted _
    · rw [hout]
      exact pySorted_nodup _ (eager_lu_fold_nodup P (splitMsg content) ([], none) List.nodup_nil)
    · intro a
      rw [hout, mem_pySorted, eager_lu_fold_mem P (splitMsg content) [] hfold a]
      simp only [List.not_mem_nil, false_or]
      constructor
      · rintro ⟨p, hp, hpa⟩
        obtain ⟨hs, m, hm, hha, hae⟩ := (eagerHostOf_eq_some P p a).mp hpa
        exact ⟨p, hp, hs, m, hm, hha, hae⟩
      · rintro ⟨p, hp, hs, m, hm, hha, hae⟩
        exact ⟨p, hp, (eagerHostOf_eq_some P p a).mpr ⟨hs, m, hm, hha, hae⟩⟩

end C8Claim

section C8CexWitness

/-- A fully decodable record with host 10.0.0.1. -/
def c8CexFrag1 : Str :=
  ("<msg time='2023-09-11T10:00:00' host_addr='10.0.0.1'>\n" ++
   " <txt>a\n" ++
   " </txt>\n" ++
   "</msg>\n").toList

/-- A parseable record with host 10.0.0.2 but no `txt` child: `ET.fromstring`
succeeds, but `process_msg` raises `AttributeError` at
`tree.find('txt').text`. -/
def c8CexFrag2 : Str :=
  ("<msg time='2023-09-11T10:01:00' host_addr='10.0.0.2'>\n" ++
   "</msg>\n").toList

/-- The C8 counterexample stream as whole-file content. -/
def c8CexContent : Str := c8CexFrag1 ++ c8CexFrag2

/-- The C8 counterexample stream as lines. -/
def c8CexLines : List Str :=
  ["<msg time='2023-09-11T10:00:00' host_addr='10.0.0.1'>\n".toList,
   " <txt>a\n".toList,
   " </txt>\n".toList,
   "</msg>\n".toList,
   "<msg time='2023-09-11T10:01:00' host_addr='10.0.0.2'>\n".toList,
   "</msg>\n".toList]

/-- Counterexample to C8 as stated: on a stream holding a successfully
decoded record with non-empty host 10.0.0.1 (and a second, parseable record
whose missing `txt` child makes `process_msg` raise), the eager
`list_unique_host_addrs` aborts with an uncaught `AttributeError` and
prints NOTHING — not the sorted set of distinct hosts — while the
incremental variant prints `10.0.0.1`, `10.0.0.2`. -/
theorem c8_distinct_hosts_sorted_set_cex :
    Eager.list_unique_host_addrs lxmlFromstring c8CexContent =
      ⟨[], some .attributeError⟩ ∧
    hostOfFrag lxmlFromstring c8CexFrag1 = some ("10.0.0.1".toList) ∧
    process_msg lxmlFromstring c8CexFrag2 = .error .attributeError ∧
    LowMem.list_unique_host_addrs lxmlFromstring c8CexLines =
      ⟨["10.0.0.1".toList, "10.0.0.2".toList], none⟩ :=
  ⟨rfl, rfl, rfl, rfl⟩

/-- The claim's dedupe-and-sort example as a stream: records with host
addresses 10.0.0.2, 10.0.0.1, 10.0.0.2. -/
def c8WitLines : List Str :=
  ["<msg time='2023-09-11T10:00:00' host_addr='10.0.0.2'>\n".toList,
   " <txt>a\n".toList,
   " </txt>\n".toList,
   "</msg>\n".toList,
   "<msg time='2023-09-11T10:01:00' host_addr='10.0.0.1'>\n".toList,
   " <txt>b\n".toList,
   " </txt>\n".toList,
   "</msg>\n".toList,
   "<msg time='2023-09-11T10:02:00' host_addr='10.0.0.2'>\n".toList,
   " <txt>c\n".toList,
   " </txt>\n".toList,
   "</msg>\n".toList]

/-- Witness for the amended C8 on the claim's own example stream, whose
eager scan completes cleanly; the output is exactly `10.0.0.1` then
`10.0.0.2`. -/
theorem c8_distinct_hosts_sorted_set_witness :
    ((Eager.list_unique_host_addrs lxmlFromstring c8WitLines.flatten).err = none) ∧
    (((LowMem.list_unique_host_addrs lxmlFromstring c8WitLines).out.Sorted strLe ∧
      (LowMem.list_unique_host_addrs lxmlFromstring c8WitLines).out.Nodup ∧
      (∀ a, a ∈ (LowMem.list_unique_host_addrs lxmlFromstring c8WitLines).out ↔
        ∃ f ∈ flushedFrags c8WitLines, ∃ e, lxmlFromstring f = .ok e ∧
          e.get ("host_addr".toList) = some a ∧ a.isEmpty = false) ∧
      (LowMem.list_unique_host_addrs lxmlFromstring c8WitLines).err = none) ∧
    ((Eager.list_unique_host_addrs lxmlFromstring c8WitLines.flatten).out.Sorted strLe ∧
      (Eager.list_unique_host_addrs lxmlFromstring c8WitLines.flatten).out.Nodup ∧
      (∀ a, a ∈ (Eager.list_unique_host_addrs lxmlFromstring c8WitLines.flatten).out ↔
        ∃ p ∈ splitMsg c8WitLines.flatten, stripIsEmpty p = false ∧
          ∃ m, process_msg lxmlFromstring (msgStart ++ p) = .ok m ∧ m.host_addr = some a ∧
            a.isEmpty = false))) ∧
    LowMem.list_unique_host_addrs lxmlFromstring c8WitLines =
      ⟨["10.0.0.1".toList, "10.0.0.2".toList], none⟩ :=
  ⟨rfl,
    c8_distinct_hosts_sorted_set lxmlFromstring c8WitLines c8WitLines.flatten rfl,
    rfl⟩

end C8CexWitness
